import Mathlib

/-!
# Verification of the vertx-python-client event-bus core

Shallow embedding of `src/vertx/eventbus.py`.

Python strings are modelled as lists of Unicode code points (`List Nat`,
each `< 0x110000`); byte strings as lists of bytes (`List Nat`, each
`< 256`).  JSON values are modelled by the inductive `Json` below; Python
`float` payloads and the non-standard `NaN`/`Infinity` literals accepted
by `json.loads` are outside the model (no claim exercises them).

All recursive functions are structural (fuel-based where needed) so that
every definition evaluates inside the kernel.
-/

namespace Vertx

/-- Code points of a string literal, the model of a Python `str` constant. -/
def strL (s : String) : List Nat := s.toList.map Char.toNat

/-- JSON values as produced by `json.loads` / consumed by `json.dumps`:
`null`, booleans, arbitrary-precision integers, strings, arrays and
(insertion-ordered) objects.  Python floats are not modelled. -/
inductive Json where
  | null : Json
  | bool (b : Bool) : Json
  | int (n : Int) : Json
  | str (s : List Nat) : Json
  | arr (elems : List Json) : Json
  | obj (members : List (List Nat × Json)) : Json

namespace Json

mutual
/-- Boolean equality on JSON values (Python `==` on parsed values). -/
def beq : Json → Json → Bool
  | .null, .null => true
  | .bool x, .bool y => x = y
  | .int x, .int y => x = y
  | .str x, .str y => x = y
  | .arr xs, .arr ys => beqArr xs ys
  | .obj xs, .obj ys => beqObj xs ys
  | _, _ => false

/-- Boolean equality on JSON arrays. -/
def beqArr : List Json → List Json → Bool
  | [], [] => true
  | x :: xs, y :: ys => beq x y && beqArr xs ys
  | _, _ => false

/-- Boolean equality on JSON object member lists. -/
def beqObj : List (List Nat × Json) → List (List Nat × Json) → Bool
  | [], [] => true
  | (k, v) :: xs, (k', v') :: ys => k = k' && beq v v' && beqObj xs ys
  | _, _ => false
end

mutual
theorem beq_iff : ∀ a b : Json, beq a b = true ↔ a = b
  | .null, b => by cases b <;> simp [beq]
  | .bool x, b => by cases b <;> simp [beq]
  | .int x, b => by cases b <;> simp [beq]
  | .str x, b => by cases b <;> simp [beq]
  | .arr xs, b => by
      cases b <;> simp [beq]
      exact beqArr_iff xs _
  | .obj xs, b => by
      cases b <;> simp [beq]
      exact beqObj_iff xs _

theorem beqArr_iff : ∀ xs ys : List Json, beqArr xs ys = true ↔ xs = ys
  | [], ys => by cases ys <;> simp [beqArr]
  | x :: xs, ys => by
      cases ys with
      | nil => simp [beqArr]
      | cons y ys => simp [beqArr, beq_iff x y, beqArr_iff xs ys]

theorem beqObj_iff : ∀ xs ys : List (List Nat × Json), beqObj xs ys = true ↔ xs = ys
  | [], ys => by cases ys <;> simp [beqObj]
  | (k, v) :: xs, ys => by
      cases ys with
      | nil => simp [beqObj]
      | cons y ys =>
        obtain ⟨k', v'⟩ := y
        simp [beqObj, beq_iff v v', beqObj_iff xs ys]
end

instance : DecidableEq Json := fun a b => decidable_of_iff (beq a b = true) (beq_iff a b)

end Json

/-! ## `json.dumps` (default options: `ensure_ascii=True`,
separators `", "` and `": "`, `sort_keys=False`) -/

/-- Lowercase hexadecimal digit, as in C `%x`. -/
def hexDigit (d : Nat) : Nat := if d < 10 then 48 + d else 87 + d

/-- Four lowercase hex digits, as in the `'\u%04x'` escapes of
`json.encoder.py_encode_basestring_ascii`. -/
def hex4 (n : Nat) : List Nat :=
  [hexDigit (n / 4096 % 16), hexDigit (n / 256 % 16),
   hexDigit (n / 16 % 16), hexDigit (n % 16)]

/-- Escape of one code point in `json.dumps`'s ASCII encoder:
`"` and `\` get a backslash escape, the five short control escapes are
`\b \t \n \f \r`, every other code point below `0x20` or above `0x7e`
becomes `\uXXXX` (a surrogate pair above `0xffff`), and the printable
ASCII range passes through. -/
def escapeCp (c : Nat) : List Nat :=
  if c = 34 then [92, 34]
  else if c = 92 then [92, 92]
  else if c = 8 then [92, 98]
  else if c = 9 then [92, 116]
  else if c = 10 then [92, 110]
  else if c = 12 then [92, 102]
  else if c = 13 then [92, 114]
  else if c < 32 then 92 :: 117 :: hex4 c
  else if c ≤ 126 then [c]
  else if c < 65536 then 92 :: 117 :: hex4 c
  else
    let m := c - 65536
    (92 :: 117 :: hex4 (55296 + m / 1024)) ++ (92 :: 117 :: hex4 (56320 + m % 1024))

/-- Body of a JSON string literal: each code point escaped. -/
def escapeStr : List Nat → List Nat
  | [] => []
  | c :: t => escapeCp c ++ escapeStr t

/-- A quoted JSON string literal. -/
def dumpStr (s : List Nat) : List Nat := 34 :: escapeStr s ++ [34]

/-- Decimal digits of a natural number (fuel-based so the kernel can
evaluate it; `natPrint` supplies enough fuel). -/
def natPrintAux : Nat → Nat → List Nat
  | 0, _ => []
  | f + 1, n => if n < 10 then [48 + n] else natPrintAux f (n / 10) ++ [48 + n % 10]

/-- Decimal representation of a natural number, as `str(int)` prints it. -/
def natPrint (n : Nat) : List Nat := natPrintAux (n + 1) n

/-- Decimal representation of a Python integer (`int.__repr__`). -/
def intPrint : Int → List Nat
  | Int.ofNat n => natPrint n
  | Int.negSucc n => 45 :: natPrint (n + 1)

mutual
/-- `json.dumps` on one value (to code points; the result is pure ASCII). -/
def dumpJson : Json → List Nat
  | Json.null => strL "null"
  | Json.bool true => strL "true"
  | Json.bool false => strL "false"
  | Json.int n => intPrint n
  | Json.str s => dumpStr s
  | Json.arr [] => [91, 93]
  | Json.arr (v :: vs) => 91 :: (dumpJson v ++ dumpArr vs) ++ [93]
  | Json.obj [] => [123, 125]
  | Json.obj (m :: ms) => 123 :: (dumpMember m ++ dumpObj ms) ++ [125]

/-- Remaining array elements, each preceded by the `", "` separator. -/
def dumpArr : List Json → List Nat
  | [] => []
  | v :: vs => 44 :: 32 :: dumpJson v ++ dumpArr vs

/-- One object member, `"key": value`. -/
def dumpMember : List Nat × Json → List Nat
  | (k, v) => dumpStr k ++ 58 :: 32 :: dumpJson v

/-- Remaining object members, each preceded by the `", "` separator. -/
def dumpObj : List (List Nat × Json) → List Nat
  | [] => []
  | m :: ms => 44 :: 32 :: dumpMember m ++ dumpObj ms
end

/-! ## UTF-8 (`str.encode()` / `bytes.decode()`, strict) -/

/-- UTF-8 encoding of one code point; `none` on surrogates and
out-of-range values (Python raises `UnicodeEncodeError` there). -/
def utf8EncodeCp (c : Nat) : Option (List Nat) :=
  if c < 128 then some [c]
  else if c < 2048 then some [192 + c / 64, 128 + c % 64]
  else if c < 55296 then some [224 + c / 4096, 128 + c / 64 % 64, 128 + c % 64]
  else if c < 57344 then none
  else if c < 65536 then some [224 + c / 4096, 128 + c / 64 % 64, 128 + c % 64]
  else if c < 1114112 then
    some [240 + c / 262144, 128 + c / 4096 % 64, 128 + c / 64 % 64, 128 + c % 64]
  else none

/-- UTF-8 encoding of a string (`str.encode()`). -/
def utf8Encode : List Nat → Option (List Nat)
  | [] => some []
  | c :: t => (utf8EncodeCp c).bind (fun b => (utf8Encode t).map (fun bs => b ++ bs))

/-- Strict UTF-8 decoding (`bytes.decode()`), fuel-based; rejects
continuation-byte leads, overlong forms, surrogates and values past
`0x10FFFF`. -/
def utf8DecodeAux : Nat → List Nat → Option (List Nat)
  | 0, _ => none
  | _ + 1, [] => some []
  | f + 1, b :: t =>
    if b < 128 then (utf8DecodeAux f t).map (b :: ·)
    else if b < 194 then none
    else if b < 224 then
      match t with
      | b1 :: t' =>
        if 128 ≤ b1 ∧ b1 < 192 then
          (utf8DecodeAux f t').map (((b - 192) * 64 + (b1 - 128)) :: ·)
        else none
      | _ => none
    else if b < 240 then
      match t with
      | b1 :: b2 :: t' =>
        if (128 ≤ b1 ∧ b1 < 192) ∧ (128 ≤ b2 ∧ b2 < 192) then
          let c := (b - 224) * 4096 + (b1 - 128) * 64 + (b2 - 128)
          if 2048 ≤ c ∧ ¬(55296 ≤ c ∧ c < 57344) then
            (utf8DecodeAux f t').map (c :: ·)
          else none
        else none
      | _ => none
    else if b < 245 then
      match t with
      | b1 :: b2 :: b3 :: t' =>
        if (128 ≤ b1 ∧ b1 < 192) ∧ (128 ≤ b2 ∧ b2 < 192) ∧ (128 ≤ b3 ∧ b3 < 192) then
          let c := (b - 240) * 262144 + (b1 - 128) * 4096 + (b2 - 128) * 64 + (b3 - 128)
          if 65536 ≤ c ∧ c < 1114112 then (utf8DecodeAux f t').map (c :: ·)
          else none
        else none
      | _ => none
    else none

/-- `bytes.decode()` with enough fuel (each step consumes a byte). -/
def utf8Decode (bs : List Nat) : Option (List Nat) := utf8DecodeAux (bs.length + 1) bs

/-! ## `json.loads` (default options, strict) -/

/-- Skip JSON whitespace (space, tab, newline, carriage return). -/
def skipWs : List Nat → List Nat
  | [] => []
  | c :: t => if c = 32 ∨ c = 9 ∨ c = 10 ∨ c = 13 then skipWs t else c :: t

/-- Value of one hex digit (both cases accepted, as in `\uXXXX` escapes). -/
def hexVal (c : Nat) : Option Nat :=
  if 48 ≤ c ∧ c ≤ 57 then some (c - 48)
  else if 97 ≤ c ∧ c ≤ 102 then some (c - 87)
  else if 65 ≤ c ∧ c ≤ 70 then some (c - 55)
  else none

/-- Value of the first four hex digits of a list, if present. -/
def hex4Val : List Nat → Option Nat
  | a :: b :: c :: d :: _ =>
    match hexVal a, hexVal b, hexVal c, hexVal d with
    | some x, some y, some z, some w => some (4096 * x + 256 * y + 16 * z + w)
    | _, _, _, _ => none
  | _ => none

/-- One escape sequence after a backslash, following
`json.decoder.py_scanstring`: the short escapes, `\uXXXX`, and the
combination of a high `\uXXXX` surrogate with an immediately following
low one (a lone surrogate escape is kept as a code point, as Python
keeps it).  Returns the decoded code point and how many characters
were consumed. -/
def readEscape : List Nat → Option (Nat × Nat)
  | [] => none
  | e :: t =>
    if e = 34 then some (34, 1)
    else if e = 92 then some (92, 1)
    else if e = 47 then some (47, 1)
    else if e = 98 then some (8, 1)
    else if e = 102 then some (12, 1)
    else if e = 110 then some (10, 1)
    else if e = 114 then some (13, 1)
    else if e = 116 then some (9, 1)
    else if e = 117 then
      (hex4Val t).bind (fun n =>
        if 55296 ≤ n ∧ n < 56320 then
          if (t.drop 4).take 2 = [92, 117] then
            (hex4Val (t.drop 6)).bind (fun m =>
              if 56320 ≤ m ∧ m < 57344 then
                some (65536 + (n - 55296) * 1024 + (m - 56320), 11)
              else some (n, 5))
          else some (n, 5)
        else some (n, 5))
    else none

/-- Body of a JSON string literal after the opening quote: literal code
points at and above `0x20` (raw control characters are rejected in
strict mode), backslash escapes via `readEscape`, up to the closing
quote.  Returns the decoded string and the rest of the input. -/
def parseStr : Nat → List Nat → Option (List Nat × List Nat)
  | 0, _ => none
  | _ + 1, [] => none
  | f + 1, c :: t =>
    if c = 34 then some ([], t)
    else if c = 92 then
      match readEscape t with
      | none => none
      | some (ch, n) =>
        match parseStr f (t.drop n) with
        | some (cs, r) => some (ch :: cs, r)
        | none => none
    else if 32 ≤ c then
      match parseStr f t with
      | some (cs, r) => some (c :: cs, r)
      | none => none
    else none

/-- Is a decimal digit. -/
def isDig (c : Nat) : Bool := 48 ≤ c ∧ c ≤ 57

/-- Longest leading run of decimal digits. -/
def takeDigits : List Nat → List Nat × List Nat
  | [] => ([], [])
  | c :: t =>
    if isDig c then
      let (ds, r) := takeDigits t
      (c :: ds, r)
    else ([], c :: t)

/-- Numeric value of a digit run. -/
def digitsVal (ds : List Nat) : Nat := ds.foldl (fun a d => 10 * a + (d - 48)) 0

/-- Whether float syntax follows (`.`, `e`, `E`); Python would parse a
float there, which is outside this model. -/
def floatFollows : List Nat → Bool
  | c :: _ => c = 46 ∨ c = 101 ∨ c = 69
  | [] => false

/-- Unsigned part of a JSON number: `0`, or a nonzero digit followed by
more digits (`json`'s `NUMBER_RE`); leading zeros end the match after
the `0`. -/
def parseNumPos : List Nat → Option (Nat × List Nat)
  | [] => none
  | c :: t =>
    if c = 48 then
      if floatFollows t then none else some (0, t)
    else if isDig c then
      let (ds, r) := takeDigits t
      if floatFollows r then none else some (digitsVal (c :: ds), r)
    else none

/-- A JSON integer, with optional leading minus. -/
def parseNumber : List Nat → Option (Int × List Nat)
  | [] => none
  | c :: t =>
    if c = 45 then (parseNumPos t).map (fun p => (-(p.1 : Int), p.2))
    else (parseNumPos (c :: t)).map (fun p => ((p.1 : Int), p.2))

/-- Python-dict insertion: replace the value in place if the key
exists, else append (`d[k] = v`). -/
def objInsert (kvs : List (List Nat × Json)) (k : List Nat) (v : Json) :
    List (List Nat × Json) :=
  if kvs.any (fun p => p.1 = k) then
    kvs.map (fun p => if p.1 = k then (k, v) else p)
  else kvs ++ [(k, v)]

mutual
/-- One JSON value, first character expected immediately (the callers
skip whitespace).  Fuel decreases on nesting and on list steps.  The
single-character lookaheads (`s[end:end+1] == ']'` and the like in
`json.scanner`/`json.decoder`) are modelled with `take`. -/
def parseVal : Nat → List Nat → Option (Json × List Nat)
  | 0, _ => none
  | f + 1, s =>
    match s with
    | [] => none
    | c :: t =>
      if c = 34 then
        (parseStr (t.length + 1) t).map (fun p => (Json.str p.1, p.2))
      else if c = 91 then
        if (skipWs t).take 1 = [93] then some (Json.arr [], (skipWs t).drop 1)
        else parseArrElems f (skipWs t) []
      else if c = 123 then
        if (skipWs t).take 1 = [125] then some (Json.obj [], (skipWs t).drop 1)
        else parseObjMembers f (skipWs t) []
      else if c = 110 then
        if t.take 3 = [117, 108, 108] then some (Json.null, t.drop 3) else none
      else if c = 116 then
        if t.take 3 = [114, 117, 101] then some (Json.bool true, t.drop 3) else none
      else if c = 102 then
        if t.take 4 = [97, 108, 115, 101] then some (Json.bool false, t.drop 4) else none
      else
        (parseNumber (c :: t)).map (fun p => (Json.int p.1, p.2))

/-- Array elements after `[` (whitespace already skipped, not empty). -/
def parseArrElems : Nat → List Nat → List Json → Option (Json × List Nat)
  | 0, _, _ => none
  | f + 1, s, acc =>
    (parseVal f s).bind (fun vr =>
      if (skipWs vr.2).take 1 = [44] then
        parseArrElems f (skipWs ((skipWs vr.2).drop 1)) (acc ++ [vr.1])
      else if (skipWs vr.2).take 1 = [93] then
        some (Json.arr (acc ++ [vr.1]), (skipWs vr.2).drop 1)
      else none)

/-- Object members after `{` (whitespace already skipped, not empty). -/
def parseObjMembers : Nat → List Nat → List (List Nat × Json) →
    Option (Json × List Nat)
  | 0, _, _ => none
  | f + 1, s, acc =>
    if s.take 1 = [34] then
      (parseStr ((s.drop 1).length + 1) (s.drop 1)).bind (fun kr =>
        if (skipWs kr.2).take 1 = [58] then
          (parseVal f (skipWs ((skipWs kr.2).drop 1))).bind (fun vr =>
            if (skipWs vr.2).take 1 = [44] then
              parseObjMembers f (skipWs ((skipWs vr.2).drop 1)) (objInsert acc kr.1 vr.1)
            else if (skipWs vr.2).take 1 = [125] then
              some (Json.obj (objInsert acc kr.1 vr.1), (skipWs vr.2).drop 1)
            else none)
        else none)
    else none
end

/-- `json.loads`: optional surrounding whitespace, one value, and the
whole input must be consumed (`"Extra data"` otherwise). -/
def loads (s : List Nat) : Option Json :=
  (parseVal (2 * (skipWs s).length + 2) (skipWs s)).bind (fun jr =>
    if skipWs jr.2 = [] then some jr.1 else none)

/-- A valid Unicode scalar value: a code point that is not a surrogate
and is in range.  These are exactly the strings for which Python's
encode/escape pipeline is lossless (a high-low surrogate pair written
as two code points is merged back into one by `json.loads`). -/
def validCp (c : Nat) : Bool := c < 55296 || (57343 < c && c < 1114112)

/-- Keys of an association list are pairwise distinct (always true of
a Python dict). -/
def keysNodup {β : Type} : List (List Nat × β) → Bool
  | [] => true
  | (k, _) :: t => !t.any (fun p => p.1 = k) && keysNodup t

mutual
/-- Well-formed JSON value: every string (and key) is scalar Unicode
text and every object has distinct keys — the values an actual Python
`str`/`dict` world produces, on which `loads ∘ dumps` is the
identity. -/
def wfJ : Json → Bool
  | Json.null => true
  | Json.bool _ => true
  | Json.int _ => true
  | Json.str s => s.all validCp
  | Json.arr xs => wfArr xs
  | Json.obj ms => keysNodup ms && wfMembers ms

/-- All elements well-formed. -/
def wfArr : List Json → Bool
  | [] => true
  | x :: xs => wfJ x && wfArr xs

/-- All keys scalar and all values well-formed. -/
def wfMembers : List (List Nat × Json) → Bool
  | [] => true
  | (k, v) :: ms => k.all validCp && wfJ v && wfMembers ms
end

/-- Continuation allowed after a printed value inside a document: end
of input or a structural delimiter, so that a printed number is not
extended by the following characters. -/
def isDelim : List Nat → Bool
  | [] => true
  | c :: _ => c = 44 || c = 93 || c = 125

mutual
/-- Fuel sufficient for `parseVal` on the printed form of a value. -/
def fuelJ : Json → Nat
  | Json.null => 1
  | Json.bool _ => 1
  | Json.int _ => 1
  | Json.str _ => 1
  | Json.arr vs => 1 + fuelElems vs
  | Json.obj ms => 1 + fuelMembers ms

/-- Fuel sufficient for `parseArrElems` on printed elements. -/
def fuelElems : List Json → Nat
  | [] => 0
  | v :: vs => 1 + max (fuelJ v) (fuelElems vs)

/-- Fuel sufficient for `parseObjMembers` on printed members. -/
def fuelMembers : List (List Nat × Json) → Nat
  | [] => 0
  | (_, v) :: ms => 1 + max (fuelJ v) (fuelMembers ms)
end

/-! ## The frame codec (`Delivery.serialize` / `Delivery.deserialize`) -/

/-- `int.from_bytes(_, 'big')` on a byte list of any length. -/
def beVal (bs : List Nat) : Nat := bs.foldl (fun a b => 256 * a + b) 0

/-- The four big-endian bytes `struct.pack("!i", n)` produces for
`0 ≤ n < 2^31`. -/
def be32 (n : Nat) : List Nat :=
  [n / 16777216 % 256, n / 65536 % 256, n / 256 % 256, n % 256]

/-- `Delivery.serialize` on the delivery's `data` dict:
`msg = json.dumps(data).encode()` then
`struct.pack("!i%ss" % len(msg), len(msg), msg)`.
`none` models the raised exceptions: `UnicodeEncodeError` from
`.encode()` on surrogates, and `struct.error` from the signed 32-bit
`"!i"` field once `len(msg) ≥ 2^31`. -/
def serializeData (d : List (List Nat × Json)) : Option (List Nat) :=
  (utf8Encode (dumpJson (Json.obj d))).bind (fun msg =>
    if msg.length < 2147483648 then some (be32 msg.length ++ msg) else none)

/-- `Delivery.deserialize`:
`length = int.from_bytes(byte_array[:4], 'big')`,
`text = byte_array[4 : 4 + length].decode()`, `json.loads(text)`.
`none` models the raised `UnicodeDecodeError`/`JSONDecodeError`. -/
def deserialize (bs : List Nat) : Option Json :=
  (utf8Decode ((bs.drop 4).take (beVal (bs.take 4)))).bind loads

/-! ## `Delivery.__init__` -/

/-- One optional string field of `Delivery.__init__`: included only when
the Python value is truthy (not `None`, not the empty string). -/
def optStrField (key : String) (v : Option (List Nat)) : List (List Nat × Json) :=
  match v with
  | none => []
  | some s => if s.isEmpty then [] else [(strL key, Json.str s)]

/-- One optional dict field of `Delivery.__init__`: included only when
the Python value is truthy (not `None`, not the empty dict). -/
def optObjField (key : String) (v : Option (List (List Nat × Json))) :
    List (List Nat × Json) :=
  match v with
  | none => []
  | some m => if m.isEmpty then [] else [(strL key, Json.obj m)]

/-- The `data` dict built by `Delivery.__init__(type, address,
replyAddress, header, body)`: `type` always, each optional field only
when truthy, in argument order. -/
def deliveryData (ty : List Nat) (addr rad : Option (List Nat))
    (hdr bdy : Option (List (List Nat × Json))) : List (List Nat × Json) :=
  (strL "type", Json.str ty) ::
    (optStrField "address" addr ++ optStrField "replyAddress" rad ++
      optObjField "header" hdr ++ optObjField "body" bdy)

/-- The default `Delivery()` built by `EventBus.ping`. -/
def pingData : List (List Nat × Json) := deliveryData (strL "ping") none none none none

/-! ## The `EventBus` state (listener registry and outbound queue) -/

/-- A registered handler: either caller-supplied (`add_listen_func`)
or the default logging lambda `send` registers for `register`
envelopes. -/
inductive PyHandler (H : Type) where
  | user (h : H) : PyHandler H
  | defaultLog (address : Json) : PyHandler H
deriving DecidableEq

/-- First-match association-list lookup (`dict.get`; the dicts built by
these operations have unique keys). -/
def dictGet {α β : Type} [DecidableEq α] : List (α × β) → α → Option β
  | [], _ => none
  | (k, v) :: t, a => if k = a then some v else dictGet t a

/-- Python-dict assignment `d[k] = v`: replace in place or append. -/
def dictSet {α β : Type} [DecidableEq α] (kvs : List (α × β)) (a : α) (b : β) :
    List (α × β) :=
  if (dictGet kvs a).isSome then
    kvs.map (fun p => if p.1 = a then (a, b) else p)
  else kvs ++ [(a, b)]

/-- Python `del d[k]`: `none` models the raised `KeyError`. -/
def pyDictDel {α β : Type} [DecidableEq α] (kvs : List (α × β)) (a : α) :
    Option (List (α × β)) :=
  if (dictGet kvs a).isSome then some (kvs.filter (fun p => ¬p.1 = a)) else none

/-- The mutable state of an `EventBus`: the `listen_funcs` registry and
the `inputs` outbound queue (a FIFO of delivery `data` dicts). -/
structure BusState (H : Type) where
  listen_funcs : List (Json × PyHandler H)
  inputs : List (List (List Nat × Json))
deriving DecidableEq

/-- Python truthiness of a JSON value (`if address:`). -/
def pyTruthy : Json → Bool
  | Json.null => false
  | Json.bool b => b
  | Json.int n => n ≠ 0
  | Json.str s => s ≠ []
  | Json.arr xs => xs ≠ []
  | Json.obj ms => ms ≠ []

/-- `EventBus.send`: when `payload.data.get("address")` is truthy and
`payload.data.get("type") == "register"`, store the default logging
handler under that address, then schedule the payload onto the
outbound queue. -/
def send {H : Type} (d : List (List Nat × Json)) (st : BusState H) : BusState H :=
  match dictGet d (strL "address") with
  | some addr =>
    if pyTruthy addr ∧ dictGet d (strL "type") = some (Json.str (strL "register")) then
      { listen_funcs := dictSet st.listen_funcs addr (PyHandler.defaultLog addr),
        inputs := st.inputs ++ [d] }
    else { st with inputs := st.inputs ++ [d] }
  | none => { st with inputs := st.inputs ++ [d] }

/-- Python hashability of a decoded JSON value: `None`, booleans, numbers
and strings are hashable; decoded arrays (`list`) and objects (`dict`) are
not, so using one as a `dict.get` key raises `TypeError`. -/
def hashable : Json → Bool
  | Json.arr _ => false
  | Json.obj _ => false
  | _ => true

/-- `EventBus.listen` (dispatch): no-op unless the decoded mapping has
both `address` and `body` keys; otherwise look up the handler for the
address value with `self.listen_funcs.get(address)` and, when found,
invoke it with the body.  Returns the unchanged state and the list of
handler invocations performed; `none` models the uncaught `TypeError`
that `dict.get` raises when the decoded address value is unhashable
(a JSON array or object). -/
def listen {H : Type} (st : BusState H) (m : List (List Nat × Json)) :
    Option (BusState H × List (PyHandler H × Json)) :=
  match dictGet m (strL "address"), dictGet m (strL "body") with
  | some a, some b =>
    if hashable a then
      match dictGet st.listen_funcs a with
      | some f => some (st, [(f, b)])
      | none => some (st, [])
    else none
  | _, _ => some (st, [])

/-- `EventBus.delete_listen_func`: `del` the entry, catching `KeyError`
(the `Bool` is whether the error was logged). -/
def delete_listen_func {H : Type} (st : BusState H) (a : Json) : BusState H × Bool :=
  match pyDictDel st.listen_funcs a with
  | some d => ({ st with listen_funcs := d }, false)
  | none => (st, true)

/-- One iteration of `EventBus.ping`: `self.send(Delivery())`. -/
def pingStep {H : Type} (st : BusState H) : BusState H := send pingData st

/-- The inbound half of one `_connect_then_listen` iteration: the bytes
of one socket read go through `Delivery.deserialize` once, and the
single decoded object is dispatched via `listen` (whose own `none`, the
unhashable-address `TypeError`, propagates).  `none` also models the
exception escaping the loop when the bytes do not decode, and covers
the non-mapping payloads the claims do not exercise. -/
def inboundStep {H : Type} (bytes : List Nat) (st : BusState H) :
    Option (BusState H × List (PyHandler H × Json)) :=
  match deserialize bytes with
  | some (Json.obj m) => listen st m
  | _ => none

/-! ## `EventBus.connect` and the daemon thread -/

/-- The tasks `connect` schedules on the event loop. -/
inductive SessionTask where
  | connectLoop : SessionTask
  | keepalive : SessionTask
deriving DecidableEq

/-- The session-lifecycle state `connect` touches: the tasks created on
the loop and whether the daemon thread has been started. -/
structure SessionState where
  tasks : List SessionTask
  threadStarted : Bool
deriving DecidableEq

/-- Outcome of `connect()`: normal return, or the `RuntimeError`
(`"threads can only be started once"`) from `Thread.start`. -/
inductive ConnectOutcome where
  | ok : ConnectOutcome
  | runtimeError : ConnectOutcome
deriving DecidableEq

/-- `EventBus.connect`: `create_task(_connect_then_listen())`,
`create_task(ping())`, then `daemon.start()` — which raises
`RuntimeError` when the thread was already started, after the two
tasks were already created. -/
def connect (s : SessionState) : ConnectOutcome × SessionState :=
  let s1 : SessionState :=
    { s with tasks := s.tasks ++ [SessionTask.connectLoop, SessionTask.keepalive] }
  if s1.threadStarted then (ConnectOutcome.runtimeError, s1)
  else (ConnectOutcome.ok, { s1 with threadStarted := true })

/-! # Theorems

Lexical helpers first, then the `loads ∘ dumps` roundtrip, then the
claims about the event-bus operations. -/

theorem skipWs_cons_of_ne {c : Nat} (t : List Nat)
    (h : ¬(c = 32 ∨ c = 9 ∨ c = 10 ∨ c = 13)) : skipWs (c :: t) = c :: t := by
  simp only [skipWs, h, if_false]

theorem skipWs_space (t : List Nat) : skipWs (32 :: t) = skipWs t := by
  simp [skipWs]

theorem natPrintAux_ne_nil : ∀ f n, n < f → natPrintAux f n ≠ [] := by
  intro f
  induction f with
  | zero => omega
  | succ f ih =>
    intro n hn
    by_cases h : n < 10
    · simp [natPrintAux, h]
    · simp only [natPrintAux, h, if_false]
      intro hc
      exact ih (n / 10) (by omega) (List.append_eq_nil.mp hc).1

theorem natPrintAux_digits : ∀ f n, n < f → ∀ c ∈ natPrintAux f n, 48 ≤ c ∧ c ≤ 57 := by
  intro f
  induction f with
  | zero => omega
  | succ f ih =>
    intro n hn c hc
    by_cases h : n < 10
    · simp [natPrintAux, h] at hc
      omega
    · simp only [natPrintAux, h, if_false, List.mem_append, List.mem_singleton] at hc
      rcases hc with hc | hc
      · exact ih (n / 10) (by omega) c hc
      · omega

theorem natPrintAux_head_ne_zero :
    ∀ f n, n < f → 1 ≤ n → ∀ c cs, natPrintAux f n = c :: cs → c ≠ 48 := by
  intro f
  induction f with
  | zero => omega
  | succ f ih =>
    intro n hn hpos c cs heq
    by_cases h : n < 10
    · rw [(by simp [natPrintAux, h] : natPrintAux (f + 1) n = [48 + n])] at heq
      injection heq with h1 h2
      omega
    · simp only [natPrintAux, h, if_false] at heq
      obtain ⟨d, ds, hd⟩ : ∃ d ds, natPrintAux f (n / 10) = d :: ds := by
        cases hnp : natPrintAux f (n / 10) with
        | nil => exact absurd hnp (natPrintAux_ne_nil f (n / 10) (by omega))
        | cons d ds => exact ⟨d, ds, rfl⟩
      rw [hd] at heq
      simp only [List.cons_append, List.cons.injEq] at heq
      exact heq.1 ▸ ih (n / 10) (by omega) (by omega) d ds hd

theorem digitsVal_append_singleton (xs : List Nat) (d : Nat) :
    digitsVal (xs ++ [d]) = 10 * digitsVal xs + (d - 48) := by
  simp [digitsVal, List.foldl_append]

theorem digitsVal_natPrintAux : ∀ f n, n < f → digitsVal (natPrintAux f n) = n := by
  intro f
  induction f with
  | zero => omega
  | succ f ih =>
    intro n hn
    by_cases h : n < 10
    · simp [natPrintAux, h, digitsVal]
    · simp only [natPrintAux, h, if_false]
      rw [digitsVal_append_singleton, ih (n / 10) (by omega)]
      omega

theorem floatFollows_of_delim {rest : List Nat} (hr : isDelim rest = true) :
    floatFollows rest = false := by
  cases rest with
  | nil => rfl
  | cons c t =>
    simp only [isDelim, Bool.or_eq_true, decide_eq_true_eq] at hr
    simp only [floatFollows, decide_eq_false_iff_not]
    omega

theorem takeDigits_append :
    ∀ (ds rest : List Nat), (∀ c ∈ ds, 48 ≤ c ∧ c ≤ 57) →
      (∀ c ∈ rest.take 1, ¬(48 ≤ c ∧ c ≤ 57)) →
      takeDigits (ds ++ rest) = (ds, rest) := by
  intro ds
  induction ds with
  | nil =>
    intro rest _ hr
    cases rest with
    | nil => rfl
    | cons c t =>
      have : ¬(48 ≤ c ∧ c ≤ 57) := hr c (by simp)
      simp only [List.nil_append, takeDigits, isDig]
      rw [if_neg]
      simpa using this
  | cons c ds ih =>
    intro rest hds hr
    have hc : 48 ≤ c ∧ c ≤ 57 := hds c (by simp)
    simp only [List.cons_append, takeDigits, isDig]
    rw [if_pos (by simpa using hc)]
    rw [List.append_eq, ih rest (fun x hx => hds x (by simp [hx])) hr]

theorem parseNumPos_rt (n : Nat) (rest : List Nat) (hr : isDelim rest = true) :
    parseNumPos (natPrint n ++ rest) = some (n, rest) := by
  have hdelim : ∀ c ∈ rest.take 1, ¬(48 ≤ c ∧ c ≤ 57) := by
    intro c hc
    cases rest with
    | nil => simp at hc
    | cons d t =>
      simp only [List.take_succ_cons, List.take_zero, List.mem_singleton] at hc
      subst hc
      simp only [isDelim, Bool.or_eq_true, decide_eq_true_eq] at hr
      omega
  by_cases h0 : n = 0
  · subst h0
    have : natPrint 0 = [48] := rfl
    rw [this]
    simp only [List.cons_append, List.nil_append, parseNumPos, if_pos rfl]
    rw [floatFollows_of_delim hr]
    simp
  · obtain ⟨c, cs, hc⟩ : ∃ c cs, natPrint n = c :: cs := by
      cases hnp : natPrint n with
      | nil => exact absurd hnp (natPrintAux_ne_nil (n + 1) n (by omega))
      | cons c cs => exact ⟨c, cs, rfl⟩
    have hdig : ∀ x ∈ natPrint n, 48 ≤ x ∧ x ≤ 57 :=
      natPrintAux_digits (n + 1) n (by omega)
    have hcd : 48 ≤ c ∧ c ≤ 57 := hdig c (by simp [hc])
    have hc48 : c ≠ 48 := natPrintAux_head_ne_zero (n + 1) n (by omega) (by omega) c cs hc
    have hdig2 : isDig c = true := by
      simp only [isDig, decide_eq_true_eq]
      omega
    rw [hc]
    simp only [List.cons_append, parseNumPos, if_neg hc48, hdig2, if_true]
    rw [takeDigits_append cs rest (fun x hx => hdig x (by simp [hc, hx])) hdelim]
    rw [floatFollows_of_delim hr]
    have : digitsVal (c :: cs) = n := by
      rw [← hc]
      exact digitsVal_natPrintAux (n + 1) n (by omega)
    simp [this]

theorem parseNumber_rt (i : Int) (rest : List Nat) (hr : isDelim rest = true) :
    parseNumber (intPrint i ++ rest) = some (i, rest) := by
  cases i with
  | ofNat n =>
    have hint : intPrint (Int.ofNat n) = natPrint n := rfl
    rw [hint]
    obtain ⟨c, cs, hc⟩ : ∃ c cs, natPrint n = c :: cs := by
      cases hnp : natPrint n with
      | nil => exact absurd hnp (natPrintAux_ne_nil (n + 1) n (by omega))
      | cons c cs => exact ⟨c, cs, rfl⟩
    have hdig : ∀ x ∈ natPrint n, 48 ≤ x ∧ x ≤ 57 :=
      natPrintAux_digits (n + 1) n (by omega)
    have hcd : 48 ≤ c ∧ c ≤ 57 := hdig c (by simp [hc])
    rw [hc]
    have hne : c ≠ 45 := by omega
    simp only [List.cons_append, parseNumber]
    rw [if_neg hne]
    rw [← List.cons_append, ← hc, parseNumPos_rt n rest hr]
    rfl
  | negSucc m =>
    have hint : intPrint (Int.negSucc m) = 45 :: natPrint (m + 1) := rfl
    rw [hint]
    simp only [List.cons_append, parseNumber, if_true]
    rw [parseNumPos_rt (m + 1) rest hr]
    simp [Int.negSucc_eq]

/-! ## String escapes -/

theorem hexVal_hexDigit {d : Nat} (hd : d < 16) : hexVal (hexDigit d) = some d := by
  unfold hexVal hexDigit
  split_ifs <;> simp_all <;> omega

theorem hex4Val_hex4 (n : Nat) (u : List Nat) (hn : n < 65536) :
    hex4Val (hex4 n ++ u) = some n := by
  have h1 : n / 4096 % 16 < 16 := Nat.mod_lt _ (by omega)
  have h2 : n / 256 % 16 < 16 := Nat.mod_lt _ (by omega)
  have h3 : n / 16 % 16 < 16 := Nat.mod_lt _ (by omega)
  have h4 : n % 16 < 16 := Nat.mod_lt _ (by omega)
  show hex4Val (hexDigit (n / 4096 % 16) :: hexDigit (n / 256 % 16) ::
    hexDigit (n / 16 % 16) :: hexDigit (n % 16) :: u) = some n
  simp only [hex4Val, hexVal_hexDigit h1, hexVal_hexDigit h2, hexVal_hexDigit h3,
    hexVal_hexDigit h4]
  congr 1
  omega

theorem readEscape_117 (t : List Nat) :
    readEscape (117 :: t) =
      (hex4Val t).bind (fun n =>
        if 55296 ≤ n ∧ n < 56320 then
          if (t.drop 4).take 2 = [92, 117] then
            (hex4Val (t.drop 6)).bind (fun m =>
              if 56320 ≤ m ∧ m < 57344 then
                some (65536 + (n - 55296) * 1024 + (m - 56320), 11)
              else some (n, 5))
          else some (n, 5)
        else some (n, 5)) := rfl

theorem readEscape_u (n : Nat) (hn : n < 65536) (hns : ¬(55296 ≤ n ∧ n < 56320))
    (u : List Nat) : readEscape (117 :: (hex4 n ++ u)) = some (n, 5) := by
  rw [readEscape_117, hex4Val_hex4 n u hn, Option.some_bind]
  rw [if_neg hns]

theorem readEscape_pair (c : Nat) (hc : 65536 ≤ c) (hc2 : c < 1114112) (u : List Nat) :
    readEscape (117 :: (hex4 (55296 + (c - 65536) / 1024) ++
      (92 :: 117 :: (hex4 (56320 + (c - 65536) % 1024) ++ u)))) = some (c, 11) := by
  have hhi : 55296 + (c - 65536) / 1024 < 65536 := by omega
  have hlo : 56320 + (c - 65536) % 1024 < 65536 := by omega
  have h1 : 55296 ≤ 55296 + (c - 65536) / 1024 ∧ 55296 + (c - 65536) / 1024 < 56320 := by
    omega
  have h2 : 56320 ≤ 56320 + (c - 65536) % 1024 ∧ 56320 + (c - 65536) % 1024 < 57344 := by
    omega
  rw [readEscape_117, hex4Val_hex4 _ _ hhi, Option.some_bind]
  rw [if_pos h1]
  rw [show List.drop 4 (hex4 (55296 + (c - 65536) / 1024) ++
      (92 :: 117 :: (hex4 (56320 + (c - 65536) % 1024) ++ u))) =
      92 :: 117 :: (hex4 (56320 + (c - 65536) % 1024) ++ u) from rfl]
  rw [show List.take 2 (92 :: 117 :: (hex4 (56320 + (c - 65536) % 1024) ++ u)) =
      [92, 117] from rfl]
  rw [if_pos rfl]
  rw [show List.drop 6 (hex4 (55296 + (c - 65536) / 1024) ++
      (92 :: 117 :: (hex4 (56320 + (c - 65536) % 1024) ++ u))) =
      hex4 (56320 + (c - 65536) % 1024) ++ u from rfl]
  rw [hex4Val_hex4 _ u hlo, Option.some_bind]
  rw [if_pos h2]
  rw [show 65536 + (55296 + (c - 65536) / 1024 - 55296) * 1024 +
      (56320 + (c - 65536) % 1024 - 56320) = c from by omega]

theorem parseStr_backslash (f : Nat) (t : List Nat) (c k : Nat) (cs r : List Nat)
    (hre : readEscape t = some (c, k)) (hrec : parseStr f (t.drop k) = some (cs, r)) :
    parseStr (f + 1) (92 :: t) = some (c :: cs, r) := by
  have h : parseStr (f + 1) (92 :: t) =
      match parseStr f (t.drop k) with
      | some (cs, r) => some (c :: cs, r)
      | none => none := by
    simp only [parseStr]
    norm_num
    rw [hre]
  rw [h, hrec]

theorem parseStr_plain (f : Nat) (t : List Nat) {c : Nat} (cs r : List Nat)
    (h1 : c ≠ 34) (h2 : c ≠ 92) (h3 : 32 ≤ c) (hrec : parseStr f t = some (cs, r)) :
    parseStr (f + 1) (c :: t) = some (c :: cs, r) := by
  have h : parseStr (f + 1) (c :: t) =
      match parseStr f t with
      | some (cs, r) => some (c :: cs, r)
      | none => none := by
    simp only [parseStr, if_neg h1, if_neg h2, if_pos h3]
  rw [h, hrec]

theorem parseStr_rt :
    ∀ (s : List Nat), s.all validCp = true → ∀ (f : Nat) (rest : List Nat),
      s.length < f → parseStr f (escapeStr s ++ 34 :: rest) = some (s, rest) := by
  intro s
  induction s with
  | nil =>
    intro _ f rest hf
    cases f with
    | zero => omega
    | succ f => simp [escapeStr, parseStr]
  | cons c s ih =>
    intro hall f rest hf
    cases f with
    | zero => omega
    | succ f =>
    simp only [List.all_cons, Bool.and_eq_true] at hall
    have hc : validCp c = true := hall.1
    have hrec := ih hall.2 f rest (by simp at hf ⊢; omega)
    simp only [validCp, Bool.or_eq_true, Bool.and_eq_true, decide_eq_true_eq] at hc
    simp only [escapeStr, List.append_assoc]
    set X := escapeStr s ++ 34 :: rest with hX
    by_cases h34 : c = 34
    · subst h34
      rw [show escapeCp 34 ++ X = 92 :: (34 :: X) from rfl]
      exact parseStr_backslash f _ 34 1 s rest rfl hrec
    · by_cases h92 : c = 92
      · subst h92
        rw [show escapeCp 92 ++ X = 92 :: (92 :: X) from rfl]
        exact parseStr_backslash f _ 92 1 s rest rfl hrec
      · by_cases h8 : c = 8
        · subst h8
          rw [show escapeCp 8 ++ X = 92 :: (98 :: X) from rfl]
          exact parseStr_backslash f _ 8 1 s rest rfl hrec
        · by_cases h9 : c = 9
          · subst h9
            rw [show escapeCp 9 ++ X = 92 :: (116 :: X) from rfl]
            exact parseStr_backslash f _ 9 1 s rest rfl hrec
          · by_cases h10 : c = 10
            · subst h10
              rw [show escapeCp 10 ++ X = 92 :: (110 :: X) from rfl]
              exact parseStr_backslash f _ 10 1 s rest rfl hrec
            · by_cases h12 : c = 12
              · subst h12
                rw [show escapeCp 12 ++ X = 92 :: (102 :: X) from rfl]
                exact parseStr_backslash f _ 12 1 s rest rfl hrec
              · by_cases h13 : c = 13
                · subst h13
                  rw [show escapeCp 13 ++ X = 92 :: (114 :: X) from rfl]
                  exact parseStr_backslash f _ 13 1 s rest rfl hrec
                · by_cases hctl : c < 32
                  · have hesc : escapeCp c = 92 :: 117 :: hex4 c := by
                      unfold escapeCp
                      rw [if_neg h34, if_neg h92, if_neg h8, if_neg h9, if_neg h10,
                        if_neg h12, if_neg h13, if_pos hctl]
                    rw [hesc, show (92 :: 117 :: hex4 c) ++ X =
                      92 :: (117 :: (hex4 c ++ X)) from by simp]
                    refine parseStr_backslash f _ c 5 s rest ?_ ?_
                    · exact readEscape_u c (by omega) (by omega) X
                    · rw [show (117 :: (hex4 c ++ X)).drop 5 = X from rfl]
                      exact hrec
                  · by_cases hplain : c ≤ 126
                    · have hesc : escapeCp c = [c] := by
                        unfold escapeCp
                        rw [if_neg h34, if_neg h92, if_neg h8, if_neg h9, if_neg h10,
                          if_neg h12, if_neg h13, if_neg hctl, if_pos hplain]
                      rw [hesc, show [c] ++ X = c :: X from rfl]
                      exact parseStr_plain f X s rest h34 h92 (by omega) hrec
                    · by_cases hbmp : c < 65536
                      · have hesc : escapeCp c = 92 :: 117 :: hex4 c := by
                          unfold escapeCp
                          rw [if_neg h34, if_neg h92, if_neg h8, if_neg h9, if_neg h10,
                            if_neg h12, if_neg h13, if_neg hctl, if_neg (by omega),
                            if_pos hbmp]
                        rw [hesc, show (92 :: 117 :: hex4 c) ++ X =
                          92 :: (117 :: (hex4 c ++ X)) from by simp]
                        refine parseStr_backslash f _ c 5 s rest ?_ ?_
                        · exact readEscape_u c hbmp (by omega) X
                        · rw [show (117 :: (hex4 c ++ X)).drop 5 = X from rfl]
                          exact hrec
                      · have hesc : escapeCp c =
                            (92 :: 117 :: hex4 (55296 + (c - 65536) / 1024)) ++
                              (92 :: 117 :: hex4 (56320 + (c - 65536) % 1024)) := by
                          unfold escapeCp
                          rw [if_neg h34, if_neg h92, if_neg h8, if_neg h9, if_neg h10,
                            if_neg h12, if_neg h13, if_neg hctl, if_neg (by omega),
                            if_neg (by omega)]
                        rw [hesc, show ((92 :: 117 :: hex4 (55296 + (c - 65536) / 1024)) ++
                            (92 :: 117 :: hex4 (56320 + (c - 65536) % 1024))) ++ X =
                          92 :: (117 :: (hex4 (55296 + (c - 65536) / 1024) ++
                            (92 :: 117 :: (hex4 (56320 + (c - 65536) % 1024) ++ X))))
                          from by simp]
                        refine parseStr_backslash f _ c 11 s rest ?_ ?_
                        · exact readEscape_pair c (by omega) (by omega) X
                        · rw [show (117 :: (hex4 (55296 + (c - 65536) / 1024) ++
                            (92 :: 117 :: (hex4 (56320 + (c - 65536) % 1024) ++ X)))).drop 11
                            = X from rfl]
                          exact hrec

/-! ## Shape of printed values -/

theorem escapeCp_length_pos (c : Nat) : 0 < (escapeCp c).length := by
  by_cases h34 : c = 34
  · subst h34; decide
  by_cases h92 : c = 92
  · subst h92; decide
  by_cases h8 : c = 8
  · subst h8; decide
  by_cases h9 : c = 9
  · subst h9; decide
  by_cases h10 : c = 10
  · subst h10; decide
  by_cases h12 : c = 12
  · subst h12; decide
  by_cases h13 : c = 13
  · subst h13; decide
  by_cases hctl : c < 32
  · unfold escapeCp
    rw [if_neg h34, if_neg h92, if_neg h8, if_neg h9, if_neg h10, if_neg h12,
      if_neg h13, if_pos hctl]
    simp
  by_cases hpl : c ≤ 126
  · unfold escapeCp
    rw [if_neg h34, if_neg h92, if_neg h8, if_neg h9, if_neg h10, if_neg h12,
      if_neg h13, if_neg hctl, if_pos hpl]
    simp
  by_cases hbmp : c < 65536
  · unfold escapeCp
    rw [if_neg h34, if_neg h92, if_neg h8, if_neg h9, if_neg h10, if_neg h12,
      if_neg h13, if_neg hctl, if_neg hpl, if_pos hbmp]
    simp
  · unfold escapeCp
    rw [if_neg h34, if_neg h92, if_neg h8, if_neg h9, if_neg h10, if_neg h12,
      if_neg h13, if_neg hctl, if_neg hpl, if_neg hbmp]
    simp

theorem escapeStr_length_ge : ∀ s : List Nat, s.length ≤ (escapeStr s).length := by
  intro s
  induction s with
  | nil => simp [escapeStr]
  | cons c s ih =>
    simp only [escapeStr, List.length_cons, List.length_append]
    have := escapeCp_length_pos c
    omega

theorem dump_head : ∀ j : Json, ∃ c t, dumpJson j = c :: t ∧
    (c = 34 ∨ c = 91 ∨ c = 123 ∨ c = 110 ∨ c = 116 ∨ c = 102 ∨ c = 45 ∨
      (48 ≤ c ∧ c ≤ 57)) := by
  intro j
  cases j with
  | null => exact ⟨110, [117, 108, 108], rfl, by omega⟩
  | bool b =>
    cases b with
    | true => exact ⟨116, [114, 117, 101], rfl, by omega⟩
    | false => exact ⟨102, [97, 108, 115, 101], rfl, by omega⟩
  | int n =>
    cases n with
    | ofNat m =>
      obtain ⟨c, t, hct⟩ : ∃ c t, natPrint m = c :: t := by
        cases hnp : natPrint m with
        | nil => exact absurd hnp (natPrintAux_ne_nil (m + 1) m (by omega))
        | cons c t => exact ⟨c, t, rfl⟩
      have hdig : ∀ x ∈ natPrint m, 48 ≤ x ∧ x ≤ 57 :=
        natPrintAux_digits (m + 1) m (by omega)
      have hd : 48 ≤ c ∧ c ≤ 57 := hdig c (by simp [hct])
      exact ⟨c, t, by simpa [dumpJson, intPrint] using hct, by omega⟩
    | negSucc m =>
      exact ⟨45, natPrint (m + 1), by simp [dumpJson, intPrint], by omega⟩
  | str s => exact ⟨34, escapeStr s ++ [34], by simp [dumpJson, dumpStr], by omega⟩
  | arr xs =>
    cases xs with
    | nil => exact ⟨91, [93], by simp [dumpJson], by omega⟩
    | cons v vs =>
      exact ⟨91, dumpJson v ++ (dumpArr vs ++ [93]), by simp [dumpJson], by omega⟩
  | obj ms =>
    cases ms with
    | nil => exact ⟨123, [125], by simp [dumpJson], by omega⟩
    | cons m ms =>
      exact ⟨123, dumpMember m ++ (dumpObj ms ++ [125]), by simp [dumpJson], by omega⟩

theorem skipWs_dump (j : Json) (X : List Nat) :
    skipWs (dumpJson j ++ X) = dumpJson j ++ X := by
  obtain ⟨c, t, hct, hc⟩ := dump_head j
  rw [hct, List.cons_append, skipWs_cons_of_ne _ (by omega)]

theorem dumpMember_shape (m : List Nat × Json) :
    dumpMember m = 34 :: (escapeStr m.1 ++ (34 :: 58 :: 32 :: dumpJson m.2)) := by
  obtain ⟨k, v⟩ := m
  simp [dumpMember, dumpStr]

/-! ## Fuel positivity -/

theorem fuelJ_pos (j : Json) : 1 ≤ fuelJ j := by
  cases j with
  | arr vs => cases vs <;> simp [fuelJ]
  | obj ms => cases ms <;> simp [fuelJ]
  | _ => simp [fuelJ]

theorem fuelElems_pos (v : Json) (vs : List Json) : 1 ≤ fuelElems (v :: vs) := by
  simp [fuelElems]

theorem fuelMembers_pos (m : List Nat × Json) (ms : List (List Nat × Json)) :
    1 ≤ fuelMembers (m :: ms) := by
  obtain ⟨k, v⟩ := m
  simp [fuelMembers]

/-! ## Python-dict insertion under distinct keys -/

theorem keysNodup_head_not_in {β : Type} (k : List Nat) (v : β) :
    ∀ (acc ms : List (List Nat × β)), keysNodup (acc ++ (k, v) :: ms) = true →
      acc.any (fun p => p.1 = k) = false := by
  intro acc
  induction acc with
  | nil => intro ms _; rfl
  | cons p acc ih =>
    intro ms h
    obtain ⟨k0, v0⟩ := p
    rw [List.cons_append] at h
    simp only [keysNodup, List.append_eq, Bool.and_eq_true, Bool.not_eq_true'] at h
    obtain ⟨h1, h2⟩ := h
    have hk0 : ¬(k0 = k) := by
      intro hk
      subst hk
      have hm : ((acc ++ (k0, v) :: ms).any (fun p => decide (p.1 = k0))) = true :=
        List.any_eq_true.mpr ⟨(k0, v), by simp, by simp⟩
      rw [hm] at h1
      cases h1
    simp only [List.any_cons, Bool.or_eq_false_iff]
    exact ⟨by simpa using hk0, ih ms h2⟩

theorem objInsert_fresh (kvs : List (List Nat × Json)) (k : List Nat) (v : Json)
    (h : kvs.any (fun p => p.1 = k) = false) : objInsert kvs k v = kvs ++ [(k, v)] := by
  simp [objInsert, h]

/-! ## One-step equations and small facts for the parser -/

theorem take1_cons (c : Nat) (t : List Nat) : (c :: t).take 1 = [c] := rfl

theorem drop1_cons (c : Nat) (t : List Nat) : (c :: t).drop 1 = t := rfl

theorem intPrint_head (n : Int) :
    ∃ c t, intPrint n = c :: t ∧ (c = 45 ∨ (48 ≤ c ∧ c ≤ 57)) := by
  cases n with
  | ofNat m =>
    obtain ⟨c, t, hct⟩ : ∃ c t, natPrint m = c :: t := by
      cases hnp : natPrint m with
      | nil => exact absurd hnp (natPrintAux_ne_nil (m + 1) m (by omega))
      | cons c t => exact ⟨c, t, rfl⟩
    have hdig : ∀ x ∈ natPrint m, 48 ≤ x ∧ x ≤ 57 :=
      natPrintAux_digits (m + 1) m (by omega)
    have hd : 48 ≤ c ∧ c ≤ 57 := hdig c (by simp [hct])
    exact ⟨c, t, hct, by omega⟩
  | negSucc m => exact ⟨45, natPrint (m + 1), rfl, by omega⟩

theorem parseVal_succ_34 (f : Nat) (t : List Nat) :
    parseVal (f + 1) (34 :: t) =
      (parseStr (t.length + 1) t).map (fun p => (Json.str p.1, p.2)) := rfl

theorem parseVal_succ_91 (f : Nat) (t : List Nat) :
    parseVal (f + 1) (91 :: t) =
      if (skipWs t).take 1 = [93] then some (Json.arr [], (skipWs t).drop 1)
      else parseArrElems f (skipWs t) [] := rfl

theorem parseVal_succ_123 (f : Nat) (t : List Nat) :
    parseVal (f + 1) (123 :: t) =
      if (skipWs t).take 1 = [125] then some (Json.obj [], (skipWs t).drop 1)
      else parseObjMembers f (skipWs t) [] := rfl

theorem parseVal_succ_num (f : Nat) {c : Nat} (t : List Nat)
    (h34 : c ≠ 34) (h91 : c ≠ 91) (h123 : c ≠ 123) (h110 : c ≠ 110)
    (h116 : c ≠ 116) (h102 : c ≠ 102) :
    parseVal (f + 1) (c :: t) =
      (parseNumber (c :: t)).map (fun p => (Json.int p.1, p.2)) := by
  simp only [parseVal, if_neg h34, if_neg h91, if_neg h123, if_neg h110,
    if_neg h116, if_neg h102]

theorem parseArrElems_succ (f : Nat) (s : List Nat) (acc : List Json) :
    parseArrElems (f + 1) s acc =
      (parseVal f s).bind (fun vr =>
        if (skipWs vr.2).take 1 = [44] then
          parseArrElems f (skipWs ((skipWs vr.2).drop 1)) (acc ++ [vr.1])
        else if (skipWs vr.2).take 1 = [93] then
          some (Json.arr (acc ++ [vr.1]), (skipWs vr.2).drop 1)
        else none) := rfl

theorem parseObjMembers_succ34 (f : Nat) (t : List Nat) (acc : List (List Nat × Json)) :
    parseObjMembers (f + 1) (34 :: t) acc =
      (parseStr (t.length + 1) t).bind (fun kr =>
        if (skipWs kr.2).take 1 = [58] then
          (parseVal f (skipWs ((skipWs kr.2).drop 1))).bind (fun vr =>
            if (skipWs vr.2).take 1 = [44] then
              parseObjMembers f (skipWs ((skipWs vr.2).drop 1)) (objInsert acc kr.1 vr.1)
            else if (skipWs vr.2).take 1 = [125] then
              some (Json.obj (objInsert acc kr.1 vr.1), (skipWs vr.2).drop 1)
            else none)
        else none) := rfl

theorem dumpArr_delim (vs : List Json) (rest : List Nat) :
    isDelim (dumpArr vs ++ 93 :: rest) = true := by
  cases vs with
  | nil => simp [dumpArr, isDelim]
  | cons w ws => simp [dumpArr, isDelim]

theorem dumpObj_delim (ms : List (List Nat × Json)) (rest : List Nat) :
    isDelim (dumpObj ms ++ 125 :: rest) = true := by
  cases ms with
  | nil => simp [dumpObj, isDelim]
  | cons m ms => simp [dumpObj, isDelim]

theorem skipWs_member (m : List Nat × Json) (X : List Nat) :
    skipWs (dumpMember m ++ X) = dumpMember m ++ X := by
  rw [dumpMember_shape, List.cons_append, skipWs_cons_of_ne _ (by omega)]

/-! ## The `loads ∘ dumps` roundtrip -/

mutual

theorem parseVal_rt : ∀ (f : Nat) (j : Json) (rest : List Nat), wfJ j = true →
    isDelim rest = true → fuelJ j ≤ f → parseVal f (dumpJson j ++ rest) = some (j, rest)
  | 0, j, _ => fun _ _ hf => absurd hf (by have := fuelJ_pos j; omega)
  | f + 1, j, rest => fun hwf hd hf => by
    cases j with
    | null => rfl
    | bool b => cases b <;> rfl
    | int n =>
      obtain ⟨c, t, hct, hc⟩ := intPrint_head n
      rw [show dumpJson (Json.int n) = intPrint n from by simp [dumpJson], hct,
        List.cons_append,
        parseVal_succ_num f _ (by omega) (by omega) (by omega) (by omega) (by omega)
          (by omega),
        ← List.cons_append, ← hct, parseNumber_rt n rest hd]
      rfl
    | str s =>
      rw [show dumpJson (Json.str s) ++ rest = 34 :: (escapeStr s ++ 34 :: rest) from by
          simp [dumpJson, dumpStr],
        parseVal_succ_34,
        parseStr_rt s (by simpa [wfJ] using hwf) _ rest (by
          have := escapeStr_length_ge s
          simp only [List.length_append, List.length_cons]
          omega)]
      rfl
    | arr vs =>
      cases vs with
      | nil =>
        rw [show dumpJson (Json.arr []) ++ rest = 91 :: (93 :: rest) from by
            simp [dumpJson],
          parseVal_succ_91, skipWs_cons_of_ne rest (by omega), take1_cons,
          if_pos rfl, drop1_cons]
      | cons v vs =>
        rw [show dumpJson (Json.arr (v :: vs)) ++ rest =
            91 :: (dumpJson v ++ (dumpArr vs ++ 93 :: rest)) from by simp [dumpJson],
          parseVal_succ_91, skipWs_dump v _]
        obtain ⟨c, t, hct, hc⟩ := dump_head v
        rw [if_neg (by rw [hct, List.cons_append, take1_cons]; simp; omega)]
        rw [parseArrElems_rt f v vs [] rest (by simpa [wfJ] using hwf) hd
          (by simp only [fuelJ] at hf; omega)]
        simp
    | obj ms =>
      cases ms with
      | nil =>
        rw [show dumpJson (Json.obj []) ++ rest = 123 :: (125 :: rest) from by
            simp [dumpJson],
          parseVal_succ_123, skipWs_cons_of_ne rest (by omega), take1_cons,
          if_pos rfl, drop1_cons]
      | cons m ms =>
        obtain ⟨k, v⟩ := m
        have hwf' : (keysNodup ((k, v) :: ms) && wfMembers ((k, v) :: ms)) = true := by
          simpa [wfJ] using hwf
        rw [show dumpJson (Json.obj ((k, v) :: ms)) ++ rest =
            123 :: (dumpMember (k, v) ++ (dumpObj ms ++ 125 :: rest)) from by
            simp [dumpJson],
          parseVal_succ_123, skipWs_member (k, v) _]
        rw [if_neg (by rw [dumpMember_shape, List.cons_append, take1_cons]; simp)]
        rw [parseObjMembers_rt f k v ms [] rest
          (by simpa using (Bool.and_eq_true _ _ |>.mp hwf').1)
          (Bool.and_eq_true _ _ |>.mp hwf').2 hd
          (by simp only [fuelJ] at hf; omega)]
        simp

theorem parseArrElems_rt : ∀ (f : Nat) (v : Json) (vs : List Json) (acc : List Json)
    (rest : List Nat), wfArr (v :: vs) = true → isDelim rest = true →
    fuelElems (v :: vs) ≤ f →
    parseArrElems f (dumpJson v ++ (dumpArr vs ++ 93 :: rest)) acc =
      some (Json.arr (acc ++ v :: vs), rest)
  | 0, v, vs, _, _ => fun _ _ hf => absurd hf (by have := fuelElems_pos v vs; omega)
  | f + 1, v, vs, acc, rest => fun hwf hd hf => by
    have hwf' : wfJ v = true ∧ wfArr vs = true := by simpa [wfArr] using hwf
    have hmax : max (fuelJ v) (fuelElems vs) ≤ f := by
      have heq : fuelElems (v :: vs) = 1 + max (fuelJ v) (fuelElems vs) := by
        simp [fuelElems]
      omega
    have hfv : fuelJ v ≤ f := le_trans (le_max_left _ _) hmax
    have hfvs : fuelElems vs ≤ f := le_trans (le_max_right _ _) hmax
    rw [parseArrElems_succ]
    cases vs with
    | nil =>
      rw [show dumpArr ([] : List Json) ++ 93 :: rest = 93 :: rest from by simp [dumpArr],
        parseVal_rt f v (93 :: rest) hwf'.1 rfl hfv]
      simp only [Option.some_bind]
      rw [skipWs_cons_of_ne rest (by omega), take1_cons, if_neg (by decide),
        if_pos rfl, drop1_cons]
    | cons w ws =>
      rw [show dumpArr (w :: ws) ++ 93 :: rest =
          44 :: (32 :: (dumpJson w ++ (dumpArr ws ++ 93 :: rest))) from by simp [dumpArr],
        parseVal_rt f v (44 :: (32 :: (dumpJson w ++ (dumpArr ws ++ 93 :: rest))))
          hwf'.1 rfl hfv]
      simp only [Option.some_bind]
      rw [skipWs_cons_of_ne _ (by omega), take1_cons, if_pos rfl, drop1_cons,
        skipWs_space, skipWs_dump w _,
        parseArrElems_rt f w ws (acc ++ [v]) rest hwf'.2 hd hfvs]
      simp

theorem parseObjMembers_rt : ∀ (f : Nat) (k : List Nat) (v : Json)
    (ms : List (List Nat × Json)) (acc : List (List Nat × Json)) (rest : List Nat),
    keysNodup (acc ++ (k, v) :: ms) = true → wfMembers ((k, v) :: ms) = true →
    isDelim rest = true → fuelMembers ((k, v) :: ms) ≤ f →
    parseObjMembers f (dumpMember (k, v) ++ (dumpObj ms ++ 125 :: rest)) acc =
      some (Json.obj (acc ++ (k, v) :: ms), rest)
  | 0, k, v, ms, _, _ => fun _ _ _ hf =>
      absurd hf (by have := fuelMembers_pos (k, v) ms; omega)
  | f + 1, k, v, ms, acc, rest => fun hnd hwf hd hf => by
    have hwf' := hwf
    simp only [wfMembers, Bool.and_eq_true] at hwf'
    obtain ⟨⟨hk, hv⟩, hms⟩ := hwf'
    have hmax : max (fuelJ v) (fuelMembers ms) ≤ f := by
      have heq : fuelMembers ((k, v) :: ms) = 1 + max (fuelJ v) (fuelMembers ms) := by
        simp [fuelMembers]
      omega
    have hfv : fuelJ v ≤ f := le_trans (le_max_left _ _) hmax
    have hfms : fuelMembers ms ≤ f := le_trans (le_max_right _ _) hmax
    have hfresh : acc.any (fun p => p.1 = k) = false := keysNodup_head_not_in k v acc ms hnd
    have hshape : dumpMember (k, v) ++ (dumpObj ms ++ 125 :: rest) =
        34 :: (escapeStr k ++ 34 :: (58 :: (32 :: (dumpJson v ++
          (dumpObj ms ++ 125 :: rest))))) := by
      simp [dumpMember, dumpStr]
    rw [hshape, parseObjMembers_succ34,
      parseStr_rt k hk _ _ (by
        have := escapeStr_length_ge k
        simp only [List.length_append, List.length_cons]
        omega)]
    simp only [Option.some_bind]
    rw [skipWs_cons_of_ne _ (by omega), take1_cons, if_pos rfl, drop1_cons,
      skipWs_space, skipWs_dump v _,
      parseVal_rt f v (dumpObj ms ++ 125 :: rest) hv (dumpObj_delim ms rest) hfv]
    simp only [Option.some_bind]
    cases ms with
    | nil =>
      rw [show dumpObj ([] : List (List Nat × Json)) ++ 125 :: rest = 125 :: rest from by
          simp [dumpObj],
        skipWs_cons_of_ne rest (by omega), take1_cons, if_neg (by decide),
        if_pos rfl, drop1_cons, objInsert_fresh acc k v hfresh]
    | cons m2 ms2 =>
      obtain ⟨k2, v2⟩ := m2
      rw [show dumpObj ((k2, v2) :: ms2) ++ 125 :: rest =
          44 :: (32 :: (dumpMember (k2, v2) ++ (dumpObj ms2 ++ 125 :: rest))) from by
          simp [dumpObj],
        skipWs_cons_of_ne _ (by omega), take1_cons, if_pos rfl, drop1_cons,
        skipWs_space, skipWs_member (k2, v2) _, objInsert_fresh acc k v hfresh,
        parseObjMembers_rt f k2 v2 ms2 (acc ++ [(k, v)]) rest
          (by simpa [List.append_assoc] using hnd) hms hd hfms]
      simp

end

/-! ## Enough fuel for `loads` -/

mutual

theorem fuelJ_le : ∀ j : Json, fuelJ j ≤ (dumpJson j).length + 1
  | Json.null => by simp [fuelJ]
  | Json.bool b => by simp [fuelJ]
  | Json.int n => by simp [fuelJ]
  | Json.str s => by simp [fuelJ]
  | Json.arr vs => by
    cases vs with
    | nil => simp [fuelJ, fuelElems]
    | cons v vs =>
      have h := fuelElems_le (v :: vs)
      have hd : (dumpJson (Json.arr (v :: vs))).length =
          (dumpJson v).length + (dumpArr vs).length + 2 := by
        simp only [dumpJson, List.length_cons, List.length_append, List.length_nil]
      have he : (dumpArr (v :: vs)).length =
          (dumpJson v).length + (dumpArr vs).length + 2 := by
        simp [dumpArr]
      simp only [fuelJ]
      omega
  | Json.obj ms => by
    cases ms with
    | nil => simp [fuelJ, fuelMembers]
    | cons m ms =>
      have h := fuelMembers_le (m :: ms)
      have hd : (dumpJson (Json.obj (m :: ms))).length =
          (dumpMember m).length + (dumpObj ms).length + 2 := by
        simp only [dumpJson, List.length_cons, List.length_append, List.length_nil]
      have he : (dumpObj (m :: ms)).length =
          (dumpMember m).length + (dumpObj ms).length + 2 := by
        simp [dumpObj]
      simp only [fuelJ]
      omega

theorem fuelElems_le : ∀ vs : List Json, fuelElems vs ≤ (dumpArr vs).length
  | [] => by simp [fuelElems, dumpArr]
  | v :: vs => by
    have h1 := fuelJ_le v
    have h2 := fuelElems_le vs
    have hmax : max (fuelJ v) (fuelElems vs) ≤
        (dumpJson v).length + (dumpArr vs).length + 1 := by
      apply max_le <;> omega
    simp only [fuelElems, dumpArr, List.length_cons, List.length_append]
    omega

theorem fuelMembers_le : ∀ ms : List (List Nat × Json),
    fuelMembers ms ≤ (dumpObj ms).length
  | [] => by simp [fuelMembers, dumpObj]
  | (k, v) :: ms => by
    have h1 := fuelJ_le v
    have h2 := fuelMembers_le ms
    have hlen : (dumpJson v).length ≤ (dumpMember (k, v)).length := by
      simp [dumpMember, dumpStr]
      omega
    have hmax : max (fuelJ v) (fuelMembers ms) ≤
        (dumpMember (k, v)).length + (dumpObj ms).length + 1 := by
      apply max_le <;> omega
    have he : (dumpObj ((k, v) :: ms)).length =
        (dumpMember (k, v)).length + (dumpObj ms).length + 2 := by
      simp [dumpObj]
    simp only [fuelMembers]
    omega

end

theorem loads_dumps (j : Json) (hwf : wfJ j = true) : loads (dumpJson j) = some j := by
  unfold loads
  have h1 : skipWs (dumpJson j) = dumpJson j := by
    have := skipWs_dump j []
    simpa using this
  rw [h1]
  have h2 := parseVal_rt (2 * (dumpJson j).length + 2) j [] hwf rfl
    (by have := fuelJ_le j; omega)
  rw [List.append_nil] at h2
  rw [h2, Option.some_bind]
  simp [skipWs]

/-! ## ASCII facts: `json.dumps` output is pure ASCII -/

theorem hex4_ascii (n : Nat) : ∀ x ∈ hex4 n, x < 128 := by
  have hd : ∀ y, y < 16 → hexDigit y < 128 := by
    intro y hy
    unfold hexDigit
    split_ifs <;> omega
  intro x hx
  simp only [hex4, List.mem_cons, List.mem_singleton, List.not_mem_nil, or_false] at hx
  rcases hx with h | h | h | h <;>
    (subst h; exact hd _ (Nat.mod_lt _ (by omega)))

theorem escapeCp_ascii (c : Nat) : ∀ x ∈ escapeCp c, x < 128 := by
  intro x hx
  by_cases h34 : c = 34
  · subst h34; simp [escapeCp] at hx; omega
  by_cases h92 : c = 92
  · subst h92; simp [escapeCp] at hx; omega
  by_cases h8 : c = 8
  · subst h8; simp [escapeCp] at hx; omega
  by_cases h9 : c = 9
  · subst h9; simp [escapeCp] at hx; omega
  by_cases h10 : c = 10
  · subst h10; simp [escapeCp] at hx; omega
  by_cases h12 : c = 12
  · subst h12; simp [escapeCp] at hx; omega
  by_cases h13 : c = 13
  · subst h13; simp [escapeCp] at hx; omega
  by_cases hctl : c < 32
  · rw [show escapeCp c = 92 :: 117 :: hex4 c from by
      unfold escapeCp
      rw [if_neg h34, if_neg h92, if_neg h8, if_neg h9, if_neg h10, if_neg h12,
        if_neg h13, if_pos hctl]] at hx
    simp only [List.mem_cons] at hx
    rcases hx with h | h | h
    · omega
    · omega
    · exact hex4_ascii c x h
  by_cases hpl : c ≤ 126
  · rw [show escapeCp c = [c] from by
      unfold escapeCp
      rw [if_neg h34, if_neg h92, if_neg h8, if_neg h9, if_neg h10, if_neg h12,
        if_neg h13, if_neg hctl, if_pos hpl]] at hx
    simp at hx
    omega
  by_cases hbmp : c < 65536
  · rw [show escapeCp c = 92 :: 117 :: hex4 c from by
      unfold escapeCp
      rw [if_neg h34, if_neg h92, if_neg h8, if_neg h9, if_neg h10, if_neg h12,
        if_neg h13, if_neg hctl, if_neg hpl, if_pos hbmp]] at hx
    simp only [List.mem_cons] at hx
    rcases hx with h | h | h
    · omega
    · omega
    · exact hex4_ascii c x h
  · rw [show escapeCp c =
        (92 :: 117 :: hex4 (55296 + (c - 65536) / 1024)) ++
          (92 :: 117 :: hex4 (56320 + (c - 65536) % 1024)) from by
      unfold escapeCp
      rw [if_neg h34, if_neg h92, if_neg h8, if_neg h9, if_neg h10, if_neg h12,
        if_neg h13, if_neg hctl, if_neg hpl, if_neg hbmp]] at hx
    simp only [List.mem_append, List.mem_cons] at hx
    rcases hx with (h | h | h) | (h | h | h) <;>
      first
        | omega
        | exact hex4_ascii _ x h

theorem escapeStr_ascii : ∀ s : List Nat, ∀ x ∈ escapeStr s, x < 128 := by
  intro s
  induction s with
  | nil => simp [escapeStr]
  | cons c s ih =>
    intro x hx
    simp only [escapeStr, List.mem_append] at hx
    rcases hx with h | h
    · exact escapeCp_ascii c x h
    · exact ih x h

theorem intPrint_ascii (n : Int) : ∀ x ∈ intPrint n, x < 128 := by
  intro x hx
  cases n with
  | ofNat m =>
    have := natPrintAux_digits (m + 1) m (by omega) x (by simpa [intPrint] using hx)
    omega
  | negSucc m =>
    simp only [intPrint, List.mem_cons] at hx
    rcases hx with h | h
    · omega
    · have := natPrintAux_digits (m + 2) (m + 1) (by omega) x h
      omega

mutual

theorem dumpJson_ascii : ∀ j : Json, ∀ x ∈ dumpJson j, x < 128
  | Json.null => by
    intro x hx
    rw [show dumpJson Json.null = [110, 117, 108, 108] from rfl] at hx
    simp at hx
    omega
  | Json.bool b => by
    cases b with
    | true =>
      intro x hx
      rw [show dumpJson (Json.bool true) = [116, 114, 117, 101] from rfl] at hx
      simp at hx
      omega
    | false =>
      intro x hx
      rw [show dumpJson (Json.bool false) = [102, 97, 108, 115, 101] from rfl] at hx
      simp at hx
      omega
  | Json.int n => by
    intro x hx
    exact intPrint_ascii n x (by simpa [dumpJson] using hx)
  | Json.str s => by
    intro x hx
    have h : x = 34 ∨ x ∈ escapeStr s ∨ x = 34 := by
      simpa [dumpJson, dumpStr, or_assoc] using hx
    rcases h with h | h | h
    · omega
    · exact escapeStr_ascii s x h
    · omega
  | Json.arr vs => by
    cases vs with
    | nil =>
      intro x hx
      rw [show dumpJson (Json.arr []) = [91, 93] from rfl] at hx
      simp at hx
      omega
    | cons v vs =>
      intro x hx
      have h : x = 91 ∨ x ∈ dumpJson v ∨ x ∈ dumpArr vs ∨ x = 93 := by
        simpa [dumpJson, or_assoc] using hx
      rcases h with h | h | h | h
      · omega
      · exact dumpJson_ascii v x h
      · exact dumpArr_ascii vs x h
      · omega
  | Json.obj ms => by
    cases ms with
    | nil =>
      intro x hx
      rw [show dumpJson (Json.obj []) = [123, 125] from rfl] at hx
      simp at hx
      omega
    | cons m ms =>
      intro x hx
      have h : x = 123 ∨ x ∈ dumpMember m ∨ x ∈ dumpObj ms ∨ x = 125 := by
        simpa [dumpJson, or_assoc] using hx
      rcases h with h | h | h | h
      · omega
      · exact dumpMember_ascii m x h
      · exact dumpObj_ascii ms x h
      · omega

theorem dumpArr_ascii : ∀ vs : List Json, ∀ x ∈ dumpArr vs, x < 128
  | [] => by simp [dumpArr]
  | v :: vs => by
    intro x hx
    have h : x = 44 ∨ x = 32 ∨ x ∈ dumpJson v ∨ x ∈ dumpArr vs := by
      simpa [dumpArr, or_assoc] using hx
    rcases h with h | h | h | h
    · omega
    · omega
    · exact dumpJson_ascii v x h
    · exact dumpArr_ascii vs x h

theorem dumpMember_ascii : ∀ m : List Nat × Json, ∀ x ∈ dumpMember m, x < 128
  | (k, v) => by
    intro x hx
    have h : x = 34 ∨ x ∈ escapeStr k ∨ x = 34 ∨ x = 58 ∨ x = 32 ∨ x ∈ dumpJson v := by
      simpa [dumpMember, dumpStr, or_assoc] using hx
    rcases h with h | h | h | h | h | h
    · omega
    · exact escapeStr_ascii k x h
    · omega
    · omega
    · omega
    · exact dumpJson_ascii v x h

theorem dumpObj_ascii : ∀ ms : List (List Nat × Json), ∀ x ∈ dumpObj ms, x < 128
  | [] => by simp [dumpObj]
  | m :: ms => by
    intro x hx
    have h : x = 44 ∨ x = 32 ∨ x ∈ dumpMember m ∨ x ∈ dumpObj ms := by
      simpa [dumpObj, or_assoc] using hx
    rcases h with h | h | h | h
    · omega
    · omega
    · exact dumpMember_ascii m x h
    · exact dumpObj_ascii ms x h

end

/-! ## UTF-8 on ASCII -/

theorem utf8Encode_ascii : ∀ s : List Nat, (∀ c ∈ s, c < 128) → utf8Encode s = some s := by
  intro s
  induction s with
  | nil => intro _; rfl
  | cons c t ih =>
    intro h
    have hc : c < 128 := h c (by simp)
    simp only [utf8Encode]
    rw [show utf8EncodeCp c = some [c] from by unfold utf8EncodeCp; rw [if_pos hc],
      Option.some_bind, ih (fun x hx => h x (by simp [hx]))]
    rfl

theorem utf8DecodeAux_ascii :
    ∀ (f : Nat) (s : List Nat), s.length < f → (∀ c ∈ s, c < 128) →
      utf8DecodeAux f s = some s := by
  intro f
  induction f with
  | zero => omega
  | succ f ih =>
    intro s hf h
    cases s with
    | nil => rfl
    | cons c t =>
      have hc : c < 128 := h c (by simp)
      simp only [utf8DecodeAux, if_pos hc]
      rw [ih t (by simp at hf ⊢; omega) (fun x hx => h x (by simp [hx]))]
      rfl

theorem utf8Decode_ascii (s : List Nat) (h : ∀ c ∈ s, c < 128) :
    utf8Decode s = some s :=
  utf8DecodeAux_ascii (s.length + 1) s (by omega) h

/-! ## The 4-byte frame -/

theorem beVal_be32 (n : Nat) (hn : n < 4294967296) : beVal (be32 n) = n := by
  simp only [beVal, be32, List.foldl]
  omega

theorem take4_be32 (n : Nat) (msg : List Nat) : (be32 n ++ msg).take 4 = be32 n := rfl

theorem drop4_be32 (n : Nat) (msg : List Nat) : (be32 n ++ msg).drop 4 = msg := rfl

theorem serializeData_eq (d : List (List Nat × Json))
    (hlen : (dumpJson (Json.obj d)).length < 2147483648) :
    serializeData d =
      some (be32 (dumpJson (Json.obj d)).length ++ dumpJson (Json.obj d)) := by
  unfold serializeData
  rw [utf8Encode_ascii _ (dumpJson_ascii (Json.obj d)), Option.some_bind, if_pos hlen]

theorem deserialize_frame (d : List (List Nat × Json)) (hwf : wfJ (Json.obj d) = true)
    (hlen : (dumpJson (Json.obj d)).length < 2147483648) :
    deserialize (be32 (dumpJson (Json.obj d)).length ++ dumpJson (Json.obj d)) =
      some (Json.obj d) := by
  unfold deserialize
  rw [take4_be32, drop4_be32, beVal_be32 _ (by omega), List.take_length,
    utf8Decode_ascii _ (dumpJson_ascii (Json.obj d)), Option.some_bind,
    loads_dumps _ hwf]

/-! ## Association-list (Python dict) lemmas -/

theorem dictGet_of_not_mem {α β : Type} [DecidableEq α] :
    ∀ (l : List (α × β)) (k : α), l.any (fun p => p.1 = k) = false →
      dictGet l k = none := by
  intro l
  induction l with
  | nil => intro k _; rfl
  | cons p l ih =>
    intro k h
    obtain ⟨k0, v0⟩ := p
    simp only [List.any_cons, Bool.or_eq_false_iff, decide_eq_false_iff_not] at h
    simp only [dictGet, if_neg h.1]
    exact ih k (by simpa using h.2)

theorem dictGet_append_of_not_mem {α β : Type} [DecidableEq α] :
    ∀ (l1 l2 : List (α × β)) (k : α), l1.any (fun p => p.1 = k) = false →
      dictGet (l1 ++ l2) k = dictGet l2 k := by
  intro l1
  induction l1 with
  | nil => intro l2 k _; rfl
  | cons p l1 ih =>
    intro l2 k h
    obtain ⟨k0, v0⟩ := p
    simp only [List.any_cons, Bool.or_eq_false_iff, decide_eq_false_iff_not] at h
    simp only [List.cons_append, dictGet, if_neg h.1]
    exact ih l2 k (by simpa using h.2)

theorem optStrField_no_key (s : String) (v : Option (List Nat)) (k : List Nat)
    (h : k ≠ strL s) : (optStrField s v).any (fun p => p.1 = k) = false := by
  cases v with
  | none => rfl
  | some a =>
    by_cases ha : a.isEmpty
    · simp [optStrField, ha]
    · simp [optStrField, ha]
      exact fun hk => h hk.symm

theorem optObjField_no_key (s : String) (v : Option (List (List Nat × Json)))
    (k : List Nat) (h : k ≠ strL s) :
    (optObjField s v).any (fun p => p.1 = k) = false := by
  cases v with
  | none => rfl
  | some a =>
    by_cases ha : a.isEmpty
    · simp [optObjField, ha]
    · simp [optObjField, ha]
      exact fun hk => h hk.symm

theorem dictGet_delivery_type (ty : List Nat) (addr rad : Option (List Nat))
    (hdr bdy : Option (List (List Nat × Json))) :
    dictGet (deliveryData ty addr rad hdr bdy) (strL "type") = some (Json.str ty) := by
  simp [deliveryData, dictGet]

theorem dictGet_delivery_address (ty : List Nat) (addr rad : Option (List Nat))
    (hdr bdy : Option (List (List Nat × Json))) :
    dictGet (deliveryData ty addr rad hdr bdy) (strL "address") =
      match addr with
      | some a => if a.isEmpty then none else some (Json.str a)
      | none => none := by
  have h0 : ¬(strL "type" = strL "address") := by decide
  have hrest : dictGet (optStrField "replyAddress" rad ++
      (optObjField "header" hdr ++ optObjField "body" bdy)) (strL "address") = none := by
    rw [dictGet_append_of_not_mem _ _ _ (optStrField_no_key "replyAddress" rad _ (by decide)),
      dictGet_append_of_not_mem _ _ _ (optObjField_no_key "header" hdr _ (by decide)),
      dictGet_of_not_mem _ _ (optObjField_no_key "body" bdy _ (by decide))]
  rw [show deliveryData ty addr rad hdr bdy = (strL "type", Json.str ty) ::
    (optStrField "address" addr ++ (optStrField "replyAddress" rad ++
      (optObjField "header" hdr ++ optObjField "body" bdy))) from by unfold deliveryData; simp [List.append_assoc]]
  simp only [dictGet]
  rw [if_neg h0]
  cases addr with
  | none =>
    rw [show optStrField "address" none = [] from rfl, List.nil_append]
    exact hrest
  | some a =>
    by_cases ha : a.isEmpty
    · rw [show optStrField "address" (some a) = [] from by simp [optStrField, ha],
        List.nil_append, hrest]
      simp [ha]
    · rw [show optStrField "address" (some a) = [(strL "address", Json.str a)] from by
        simp [optStrField, ha], List.singleton_append]
      simp only [dictGet, if_pos rfl]
      simp [ha]

theorem dictGet_filter_self {α β : Type} [DecidableEq α] :
    ∀ (l : List (α × β)) (a : α),
      dictGet (l.filter (fun p => ¬p.1 = a)) a = none := by
  intro l
  induction l with
  | nil => intro a; rfl
  | cons p l ih =>
    intro a
    obtain ⟨k0, v0⟩ := p
    rw [List.filter_cons]
    by_cases hk : k0 = a
    · rw [if_neg (by simp [hk])]
      exact ih a
    · rw [if_pos (by simp [hk])]
      simp only [dictGet]
      rw [if_neg hk]
      exact ih a

theorem dictGet_filter_ne {α β : Type} [DecidableEq α] :
    ∀ (l : List (α × β)) (k a : α), k ≠ a →
      dictGet (l.filter (fun p => ¬p.1 = a)) k = dictGet l k := by
  intro l
  induction l with
  | nil => intro k a _; rfl
  | cons p l ih =>
    intro k a hka
    obtain ⟨k0, v0⟩ := p
    by_cases hk : k0 = a
    · have hk0k : ¬(k0 = k) := by
        rw [hk]
        exact fun h => hka h.symm
      rw [List.filter_cons, if_neg (by simp [hk])]
      simp only [dictGet, if_neg hk0k]
      exact ih k a hka
    · rw [List.filter_cons, if_pos (by simp [hk])]
      simp only [dictGet]
      by_cases hk0 : k0 = k
      · rw [if_pos hk0, if_pos hk0]
      · rw [if_neg hk0, if_neg hk0]
        exact ih k a hka

/-! # Claims -/

/-- C1 (amended).  For every `Delivery` built with any subset of the optional
fields populated — provided the field values are well-formed Python data
(strings are scalar Unicode text without surrogate code points, dicts have
distinct keys) and the encoded JSON fits the frame's 32-bit length field —
decoding the encoded frame (`Delivery.deserialize ∘ Delivery.serialize`)
yields a mapping containing exactly the fields present on the envelope, with
identical values and no extra fields: `type` plus exactly the populated
optional fields, in order. -/
theorem c1_roundtrip_delivery (ty : List Nat) (addr rad : Option (List Nat))
    (hdr bdy : Option (List (List Nat × Json)))
    (hwf : wfJ (Json.obj (deliveryData ty addr rad hdr bdy)) = true)
    (hlen : (dumpJson (Json.obj (deliveryData ty addr rad hdr bdy))).length <
      2147483648) :
    ∃ frame, serializeData (deliveryData ty addr rad hdr bdy) = some frame ∧
      deserialize frame = some (Json.obj ((strL "type", Json.str ty) ::
        (optStrField "address" addr ++ optStrField "replyAddress" rad ++
          optObjField "header" hdr ++ optObjField "body" bdy))) := by
  refine ⟨_, serializeData_eq _ hlen, ?_⟩
  rw [deserialize_frame _ hwf hlen]
  rw [show deliveryData ty addr rad hdr bdy = (strL "type", Json.str ty) ::
    (optStrField "address" addr ++ optStrField "replyAddress" rad ++
      optObjField "header" hdr ++ optObjField "body" bdy) from by unfold deliveryData; rfl]

/-- Witness for C1 at a concrete envelope with `address` and `body` set. -/
theorem c1_roundtrip_delivery_witness :
    ∃ frame, serializeData (deliveryData (strL "send") (some (strL "news")) none none
        (some [(strL "msg", Json.str (strL "hi"))])) = some frame ∧
      deserialize frame = some (Json.obj ((strL "type", Json.str (strL "send")) ::
        (optStrField "address" (some (strL "news")) ++ optStrField "replyAddress" none ++
          optObjField "header" none ++
          optObjField "body" (some [(strL "msg", Json.str (strL "hi"))])))) :=
  c1_roundtrip_delivery (strL "send") (some (strL "news")) none none
    (some [(strL "msg", Json.str (strL "hi"))]) (by decide) (by decide)

/-- C1 counterexample.  An envelope whose `address` is the two-code-point
string `"𝄞"` (a surrogate pair written as two code points, a legal
Python `str`) serializes fine, but `json.loads` merges the escaped pair into
the single code point `0x1D11E`, so the decoded mapping does not hold an
identical value: the roundtrip changes the `address` field. -/
theorem c1_surrogate_pair_counterexample :
    (serializeData (deliveryData (strL "ping") (some [55348, 56606]) none none
      none)).isSome = true ∧
    deserialize ((serializeData (deliveryData (strL "ping") (some [55348, 56606]) none
        none none)).getD []) =
      some (Json.obj [(strL "type", Json.str (strL "ping")),
        (strL "address", Json.str [119070])]) ∧
    ([119070] : List Nat) ≠ [55348, 56606] := by decide

/-- C2 (amended).  `Delivery.deserialize` fails when fewer than 4 bytes are
available — the payload slice is then empty and the empty string is not valid
JSON — and in general its result is exactly the JSON parse of the payload
slice `byte_array[4 : 4 + L]`, where `L` is the big-endian value of the first
(up to) 4 bytes: it fails precisely when that slice is not valid UTF-8 JSON
text, and succeeds otherwise — including when fewer than `L` bytes follow the
prefix but the truncated slice happens to parse.  No `FramingError` type
exists in the code; failures are the decoder's own exceptions. -/
theorem c2_deserialize_characterization (bs : List Nat) :
    (bs.length < 4 → deserialize bs = none) ∧
    deserialize bs = (utf8Decode ((bs.drop 4).take (beVal (bs.take 4)))).bind loads := by
  constructor
  · intro h
    unfold deserialize
    rw [List.drop_eq_nil_of_le (by omega), List.take_nil]
    rfl
  · rfl

/-- Witness for C2: a 3-byte input fails. -/
theorem c2_deserialize_characterization_witness : deserialize [0, 0, 1] = none :=
  (c2_deserialize_characterization [0, 0, 1]).1 (by decide)

/-- C2 counterexample.  The claim says decoding fails whenever fewer than `L`
bytes follow the length prefix; but on `00 00 00 0A 7B 7D` (declared length
10, only 2 payload bytes) the slice `byte_array[4:14]` silently truncates to
`"{}"`, which parses, and `deserialize` succeeds. -/
theorem c2_truncated_payload_counterexample :
    beVal (([0, 0, 0, 10, 123, 125] : List Nat).take 4) = 10 ∧
    ([0, 0, 0, 10, 123, 125] : List Nat).length = 6 ∧
    deserialize [0, 0, 0, 10, 123, 125] = some (Json.obj []) := by decide

/-- C3 (amended).  For every envelope data dict whose JSON encoding is
shorter than `2^31` bytes, `Delivery.serialize` raises no error and produces
exactly `4 + L` bytes, where `L` is both the big-endian value of the first 4
bytes and the byte length of the UTF-8 JSON text that follows.  (The bound is
forced by the signed 32-bit `"!i"` field of `struct.pack`; see the
counterexample.) -/
theorem c3_frame_exact (d : List (List Nat × Json))
    (hlen : (dumpJson (Json.obj d)).length < 2147483648) :
    ∃ frame, serializeData d = some frame ∧
      frame.length = 4 + (dumpJson (Json.obj d)).length ∧
      beVal (frame.take 4) = (dumpJson (Json.obj d)).length ∧
      frame.drop 4 = dumpJson (Json.obj d) := by
  refine ⟨_, serializeData_eq d hlen, ?_, ?_, ?_⟩
  · simp [be32]
    omega
  · rw [take4_be32, beVal_be32 _ (by omega)]
  · rw [drop4_be32]

/-- Witness for C3 at the keepalive envelope. -/
theorem c3_frame_exact_witness :
    ∃ frame, serializeData pingData = some frame ∧
      frame.length = 4 + (dumpJson (Json.obj pingData)).length ∧
      beVal (frame.take 4) = (dumpJson (Json.obj pingData)).length ∧
      frame.drop 4 = dumpJson (Json.obj pingData) :=
  c3_frame_exact pingData (by decide)

theorem c3_overflow_general (n : Nat) (hn : 2147483648 ≤ n) :
    serializeData (deliveryData (strL "ping") (some (List.replicate n 97)) none none
      none) = none := by
  have hrep : (List.replicate n (97 : Nat)).isEmpty = false := by
    cases h : (List.replicate n (97 : Nat)).isEmpty with
    | false => rfl
    | true =>
      have hnil := List.isEmpty_iff.mp h
      have hl := congrArg List.length hnil
      simp at hl
      omega
  have hdata : deliveryData (strL "ping") (some (List.replicate n 97)) none
      none none = [(strL "type", Json.str (strL "ping")),
        (strL "address", Json.str (List.replicate n 97))] := by
    unfold deliveryData
    simp [optStrField, optObjField, hrep]
  have hesc : escapeStr (List.replicate n 97) = List.replicate n 97 := by
    clear hrep hdata hn
    induction n with
    | zero => rfl
    | succ m ih =>
      rw [List.replicate_succ]
      show escapeCp 97 ++ escapeStr (List.replicate m 97) = _
      rw [ih, show escapeCp 97 = [97] from rfl, List.singleton_append]
  have hlen : 2147483648 ≤ (dumpJson (Json.obj [(strL "type", Json.str (strL "ping")),
      (strL "address", Json.str (List.replicate n 97))])).length := by
    simp only [dumpJson, dumpObj, dumpMember, dumpStr, hesc, List.length_cons,
      List.length_append, List.length_replicate]
    omega
  rw [hdata]
  unfold serializeData
  rw [utf8Encode_ascii _ (dumpJson_ascii _), Option.some_bind, if_neg (by omega)]

/-- C3 counterexample.  The claim says encoding raises no error for any
well-formed envelope, but an envelope whose `address` is a string of `2^31`
characters produces a JSON text of at least `2^31` bytes, and
`struct.pack("!i", len(msg))` then raises `struct.error` (`"'i' format
requires -2147483648 <= number <= 2147483647"`): `serialize` fails. -/
theorem c3_overflow_counterexample :
    serializeData (deliveryData (strL "ping")
      (some (List.replicate 2147483648 97)) none none none) = none :=
  c3_overflow_general 2147483648 (by omega)

/-- C4 (amended).  For every decoded mapping and every registry state,
`EventBus.listen` (dispatch) invokes no handler and leaves the state
unchanged when `address` or `body` is missing; when both are present and
the address value is hashable (null, boolean, number or string), it
invokes exactly the handler registered for that value, with the mapping's
`body`, and silently drops the envelope when no handler is registered —
but when the decoded address value is a JSON array or object,
`self.listen_funcs.get(address)` raises an uncaught `TypeError` (the
envelope is not silently dropped). -/
theorem c4_dispatch {H : Type} (st : BusState H) (m : List (List Nat × Json)) :
    ((dictGet m (strL "address") = none ∨ dictGet m (strL "body") = none) →
      listen st m = some (st, [])) ∧
    (∀ a b, dictGet m (strL "address") = some a → dictGet m (strL "body") = some b →
      (hashable a = true →
        (∀ f, dictGet st.listen_funcs a = some f →
          listen st m = some (st, [(f, b)])) ∧
        (dictGet st.listen_funcs a = none → listen st m = some (st, []))) ∧
      (hashable a = false → listen st m = none)) := by
  cases h1 : dictGet m (strL "address") with
  | none =>
    refine ⟨fun _ => ?_, fun a b ha _ => ?_⟩
    · simp only [listen, h1]
    · exact Option.noConfusion ha
  | some a' =>
    cases h2 : dictGet m (strL "body") with
    | none =>
      refine ⟨fun _ => ?_, fun a b _ hb => ?_⟩
      · simp only [listen, h1, h2]
      · exact Option.noConfusion hb
    | some b' =>
      refine ⟨fun hor => ?_, fun a b ha hb => ?_⟩
      · rcases hor with h | h
        · exact Option.noConfusion h
        · exact Option.noConfusion h
      · injection ha with ha
        subst ha
        injection hb with hb
        subst hb
        constructor
        · intro hh
          constructor
          · intro f hf
            simp only [listen, h1, h2, hh, if_true, hf]
          · intro hf
            simp only [listen, h1, h2, hh, if_true, hf]
        · intro hh
          simp only [listen, h1, h2, hh, Bool.false_eq_true, if_false]

/-- Witness for C4: with a handler registered for `"news"`, dispatching a
mapping with that (hashable) address invokes exactly that handler with the
body. -/
theorem c4_dispatch_witness :
    listen (H := Nat) ⟨[(Json.str (strL "news"), PyHandler.user 0)], []⟩
      [(strL "address", Json.str (strL "news")), (strL "body", Json.obj [])] =
      some (⟨[(Json.str (strL "news"), PyHandler.user 0)], []⟩,
        [(PyHandler.user 0, Json.obj [])]) := by
  have h := c4_dispatch (H := Nat) ⟨[(Json.str (strL "news"), PyHandler.user 0)], []⟩
    [(strL "address", Json.str (strL "news")), (strL "body", Json.obj [])]
  exact ((h.2 (Json.str (strL "news")) (Json.obj []) (by decide) (by decide)).1
    (by decide)).1 (PyHandler.user 0) (by decide)

/-- C4 counterexample.  A decoded mapping whose `address` value is a JSON
array, with a `body` present and no handler registered for that address, is
not silently dropped: `dict.get` on the unhashable key raises `TypeError`
(modelled by `none`), so the claimed for-all over every decoded mapping
fails. -/
theorem c4_unhashable_counterexample :
    dictGet ([] : List (Json × PyHandler Nat)) (Json.arr []) = none ∧
    listen (H := Nat) ⟨[], []⟩
      [(strL "address", Json.arr []), (strL "body", Json.obj [])] = none := by
  decide

/-- C5.  `EventBus.send` on an envelope built by `Delivery.__init__`: when
the type is `"register"` and the address field is set (a nonempty string),
it stores the default logging handler for that address in the listener
registry and enqueues the envelope; any other envelope is enqueued without
touching the registry. -/
theorem c5_send_register {H : Type} (st : BusState H) (ty : List Nat)
    (addr rad : Option (List Nat)) (hdr bdy : Option (List (List Nat × Json))) :
    (∀ a, addr = some a → a.isEmpty = false → ty = strL "register" →
      send (deliveryData ty addr rad hdr bdy) st =
        { listen_funcs :=
            dictSet st.listen_funcs (Json.str a) (PyHandler.defaultLog (Json.str a)),
          inputs := st.inputs ++ [deliveryData ty addr rad hdr bdy] }) ∧
    ((addr = none ∨ addr = some [] ∨ ty ≠ strL "register") →
      send (deliveryData ty addr rad hdr bdy) st =
        { st with inputs := st.inputs ++ [deliveryData ty addr rad hdr bdy] }) := by
  constructor
  · intro a ha hae hty
    subst ha
    subst hty
    have hane : a ≠ [] := by
      intro h
      subst h
      simp at hae
    have hA' : dictGet (deliveryData (strL "register") (some a) rad hdr bdy)
        (strL "address") = some (Json.str a) := by
      rw [dictGet_delivery_address]
      simp [hae]
    simp only [send, hA', dictGet_delivery_type]
    rw [if_pos ⟨by simp [pyTruthy, hane], trivial⟩]
  · intro h
    rcases h with rfl | rfl | hty
    · have hA' : dictGet (deliveryData ty none rad hdr bdy) (strL "address") = none := by
        rw [dictGet_delivery_address]
      simp only [send, hA']
    · have hA' : dictGet (deliveryData ty (some []) rad hdr bdy) (strL "address") =
          none := by
        rw [dictGet_delivery_address]
        simp
      simp only [send, hA']
    · cases haddr : addr with
      | none =>
        have hA' : dictGet (deliveryData ty none rad hdr bdy) (strL "address") =
            none := by
          rw [dictGet_delivery_address]
        simp only [send, hA']
      | some a =>
        by_cases hae : a.isEmpty
        · have hA' : dictGet (deliveryData ty (some a) rad hdr bdy) (strL "address") =
              none := by
            rw [dictGet_delivery_address]
            simp [hae]
          simp only [send, hA']
        · have hA' : dictGet (deliveryData ty (some a) rad hdr bdy) (strL "address") =
              some (Json.str a) := by
            rw [dictGet_delivery_address]
            simp [hae]
          have hcond : ¬(pyTruthy (Json.str a) = true ∧
              (some (Json.str ty) : Option Json) =
                some (Json.str (strL "register"))) := by
            rintro ⟨-, h2⟩
            injection h2 with h2
            injection h2 with h2
            exact hty h2
          simp only [send, hA', dictGet_delivery_type]
          rw [if_neg hcond]

/-- Witness for C5: a `register` envelope for `"news"` adds the default
handler and is enqueued; a `send` envelope only gets enqueued. -/
theorem c5_send_register_witness :
    send (H := Nat) (deliveryData (strL "register") (some (strL "news")) none none none)
      ⟨[], []⟩ =
      { listen_funcs := dictSet [] (Json.str (strL "news"))
          (PyHandler.defaultLog (Json.str (strL "news"))),
        inputs := [deliveryData (strL "register") (some (strL "news")) none none none] }
    ∧
    send (H := Nat) (deliveryData (strL "send") (some (strL "news")) none none none)
      ⟨[], []⟩ =
      { listen_funcs := [],
        inputs := [deliveryData (strL "send") (some (strL "news")) none none none] } := by
  constructor
  · have h := (c5_send_register (H := Nat) ⟨[], []⟩ (strL "register") (some (strL "news"))
      none none none).1 (strL "news") rfl (by decide) rfl
    simpa using h
  · have h := (c5_send_register (H := Nat) ⟨[], []⟩ (strL "send") (some (strL "news"))
      none none none).2 (by right; right; decide)
    simpa using h

/-- C6.  `EventBus.delete_listen_func` never raises to the caller: when no
handler exists for the address, the `KeyError` is caught, an error is logged
and the registry is unchanged; when a handler exists, it is removed, every
other address keeps its handler, and the outbound queue is untouched. -/
theorem c6_unregister {H : Type} (st : BusState H) (a : Json) :
    (dictGet st.listen_funcs a = none → delete_listen_func st a = (st, true)) ∧
    (∀ f, dictGet st.listen_funcs a = some f →
      (delete_listen_func st a).2 = false ∧
      dictGet (delete_listen_func st a).1.listen_funcs a = none ∧
      (∀ k, k ≠ a → dictGet (delete_listen_func st a).1.listen_funcs k =
        dictGet st.listen_funcs k) ∧
      (delete_listen_func st a).1.inputs = st.inputs) := by
  constructor
  · intro h
    have hdel : pyDictDel st.listen_funcs a = none := by
      simp [pyDictDel, h]
    simp only [delete_listen_func, hdel]
  · intro f hf
    have hdel : pyDictDel st.listen_funcs a =
        some (st.listen_funcs.filter (fun p => ¬p.1 = a)) := by
      unfold pyDictDel
      rw [hf]
      rfl
    refine ⟨?_, ?_, ?_, ?_⟩
    · simp only [delete_listen_func, hdel]
    · simp only [delete_listen_func, hdel]
      exact dictGet_filter_self _ _
    · intro k hk
      simp only [delete_listen_func, hdel]
      exact dictGet_filter_ne _ _ _ hk
    · simp only [delete_listen_func, hdel]

/-- Witness for C6: deleting a missing address leaves a one-entry registry
unchanged (and logs); deleting a present address removes it. -/
theorem c6_unregister_witness :
    delete_listen_func (H := Nat) ⟨[(Json.str (strL "news"), PyHandler.user 0)], []⟩
      (Json.str (strL "olds")) =
      (⟨[(Json.str (strL "news"), PyHandler.user 0)], []⟩, true) ∧
    dictGet (delete_listen_func (H := Nat)
      ⟨[(Json.str (strL "news"), PyHandler.user 0)], []⟩
      (Json.str (strL "news"))).1.listen_funcs (Json.str (strL "news")) = none := by
  constructor
  · exact (c6_unregister (H := Nat) ⟨[(Json.str (strL "news"), PyHandler.user 0)], []⟩
      (Json.str (strL "olds"))).1 (by decide)
  · exact ((c6_unregister (H := Nat) ⟨[(Json.str (strL "news"), PyHandler.user 0)], []⟩
      (Json.str (strL "news"))).2 (PyHandler.user 0) (by decide)).2.1

/-- C7 (code bug).  One iteration of `_connect_then_listen` passes the whole
result of a single `reader.read` to `Delivery.deserialize` once and
dispatches once; when the read returns two complete frames (here, two copies
of a register-style delivery for address `"news"`, with a handler registered
for it), only the first frame is decoded and exactly one dispatch happens —
not one per frame as the claim requires. -/
theorem c7_single_dispatch_per_read :
    (inboundStep (H := Nat)
        (((serializeData (deliveryData (strL "send") (some (strL "news")) none none
          (some [(strL "msg", Json.str (strL "hi"))]))).getD []) ++
         ((serializeData (deliveryData (strL "send") (some (strL "news")) none none
          (some [(strL "msg", Json.str (strL "hi"))]))).getD []))
        ⟨[(Json.str (strL "news"), PyHandler.user 0)], []⟩).map (fun r => r.2.length) =
      some 1 := by decide

/-- C8.  Each iteration of `EventBus.ping` enqueues exactly one envelope onto
the outbound queue — the default `Delivery()`, whose wire form carries the
single field `type` with value `"ping"` and nothing else — and leaves the
listener registry unchanged. -/
theorem c8_ping {H : Type} (st : BusState H) :
    pingStep st = { st with inputs := st.inputs ++ [pingData] } ∧
    pingData = [(strL "type", Json.str (strL "ping"))] ∧
    (pingStep st).listen_funcs = st.listen_funcs ∧
    ∃ frame, serializeData pingData = some frame ∧
      deserialize frame = some (Json.obj [(strL "type", Json.str (strL "ping"))]) := by
  have hstep : pingStep st = { st with inputs := st.inputs ++ [pingData] } := by
    unfold pingStep send
    rw [show dictGet pingData (strL "address") = (none : Option Json) from by decide]
  refine ⟨hstep, by decide, by rw [hstep], ?_⟩
  exact ⟨(serializeData pingData).getD [], by decide, by decide⟩

/-- C9 (amended).  `EventBus.connect` has no already-connected guard: called
on a session whose daemon thread is already started, it still creates a
second connection-loop task and a second keepalive task on the event loop,
and then `Thread.start` raises `RuntimeError` (there is no
`AlreadyConnectedError`); the call is not a no-op. -/
theorem c9_connect_already_started (s : SessionState) (h : s.threadStarted = true) :
    connect s = (ConnectOutcome.runtimeError,
      { tasks := s.tasks ++ [SessionTask.connectLoop, SessionTask.keepalive],
        threadStarted := s.threadStarted }) := by
  unfold connect
  simp [h]

/-- Witness for C9 on a concrete already-started session. -/
theorem c9_connect_already_started_witness :
    connect ⟨[], true⟩ = (ConnectOutcome.runtimeError,
      ⟨[SessionTask.connectLoop, SessionTask.keepalive], true⟩) := by
  have h := c9_connect_already_started ⟨[], true⟩ rfl
  simpa using h

/-- C9 counterexample.  Calling `connect` twice from a fresh session is
neither a no-op nor an `AlreadyConnectedError`: the second call changes the
session state, leaves two connection-loop tasks and two keepalive tasks
scheduled, and raises `RuntimeError` from restarting the thread. -/
theorem c9_connect_twice_counterexample :
    (connect (connect ⟨[], false⟩).2).1 = ConnectOutcome.runtimeError ∧
    (connect (connect ⟨[], false⟩).2).2.tasks =
      [SessionTask.connectLoop, SessionTask.keepalive,
       SessionTask.connectLoop, SessionTask.keepalive] ∧
    (connect (connect ⟨[], false⟩).2).2 ≠ (connect ⟨[], false⟩).2 := by decide

/-- C10.  `Delivery.__init__` with an optional field bound to a falsy value —
an empty string for `address`/`replyAddress`, an empty dict for
`header`/`body` — omits that field from the data dict exactly as if it had
not been supplied, while `type` is always present; consequently the decoded
wire form of such an envelope has no key for the falsy field. -/
theorem c10_falsy_fields_omitted (ty : List Nat)
    (hwf : wfJ (Json.obj [(strL "type", Json.str ty)]) = true)
    (hlen : (dumpJson (Json.obj [(strL "type", Json.str ty)])).length < 2147483648) :
    optStrField "address" (some []) = [] ∧
    optStrField "replyAddress" (some []) = [] ∧
    optObjField "header" (some []) = [] ∧
    optObjField "body" (some []) = [] ∧
    deliveryData ty (some []) (some []) (some []) (some []) =
      deliveryData ty none none none none ∧
    deliveryData ty none none none none = [(strL "type", Json.str ty)] ∧
    ∃ frame, serializeData (deliveryData ty (some []) (some []) (some []) (some [])) =
        some frame ∧
      deserialize frame = some (Json.obj [(strL "type", Json.str ty)]) ∧
      dictGet [(strL "type", Json.str ty)] (strL "address") = none ∧
      dictGet [(strL "type", Json.str ty)] (strL "replyAddress") = none ∧
      dictGet [(strL "type", Json.str ty)] (strL "header") = none ∧
      dictGet [(strL "type", Json.str ty)] (strL "body") = none ∧
      dictGet [(strL "type", Json.str ty)] (strL "type") = some (Json.str ty) := by
  have hdd : deliveryData ty (some []) (some []) (some []) (some []) =
      [(strL "type", Json.str ty)] := by
    unfold deliveryData
    simp [optStrField, optObjField]
  have hdd0 : deliveryData ty none none none none = [(strL "type", Json.str ty)] := by
    unfold deliveryData
    simp [optStrField, optObjField]
  refine ⟨rfl, rfl, rfl, rfl, hdd.trans hdd0.symm, hdd0, ?_⟩
  rw [hdd]
  exact ⟨_, serializeData_eq _ hlen, deserialize_frame _ hwf hlen, rfl, rfl, rfl, rfl,
    rfl⟩

/-- Witness for C10 at `type = "ping"`. -/
theorem c10_falsy_fields_omitted_witness :
    deliveryData (strL "ping") (some []) (some []) (some []) (some []) =
      [(strL "type", Json.str (strL "ping"))] := by
  obtain ⟨-, -, -, -, h5, h6, -⟩ := c10_falsy_fields_omitted (strL "ping")
    (by decide) (by decide)
  exact h5.trans h6

end Vertx
